import Mathlib

/-!
Verification of the zod-mermaid schema-to-diagram generator.

This development shallowly embeds the generator from `src/mermaid-generator.ts`
(the registry-based revision), `src/entity.ts`, `src/id-ref.ts` and
`src/utils/errors.ts`.  Zod schema nodes are modelled by the inductive `Zod`;
the metadata registry is modelled by attaching the metadata that the code
actually consults (entity names on object/union nodes, the id-reference
target on string nodes) directly to the nodes.  Lazy (`z.lazy`) getters are
modelled by an index into an environment `env : List Zod`, a getter that
throws being `none` (or an out-of-range index).  JavaScript exceptions are
modelled with `Except Unit`; recursion is made total with a fuel parameter,
and running out of fuel also surfaces as `.error ()`, so every `.ok` result
corresponds to a real terminating execution of the TypeScript code.
-/

set_option autoImplicit false

namespace ZodMermaid

/-- A JavaScript literal value as used by `z.literal`. -/
inductive JsLit where
  | str (s : String)
  | num (n : Int)
  | bool (b : Bool)
  deriving DecidableEq

/-- JavaScript `typeof` for the literal values we model. -/
def JsLit.typeOf : JsLit → String
  | .str _ => "string"
  | .num _ => "number"
  | .bool _ => "boolean"

/-- JavaScript `String(v)` / template interpolation for literal values. -/
def JsLit.asString : JsLit → String
  | .str s => s
  | .num n => toString n
  | .bool b => if b then "true" else "false"

/-- JavaScript truthiness fallback on strings: `s || d`. -/
def jsOr (s d : String) : String :=
  if s = "" then d else s

/-- JavaScript truthiness of an optional string value (`undefined` and `""` are falsy). -/
def truthySome : Option String → Bool
  | some s => !(s == "")
  | none => false

/-- JavaScript `o || d` where `o` is a possibly-undefined string. -/
def jsOrOpt (o : Option String) (d : String) : String :=
  match o with
  | some s => jsOr s d
  | none => d

/-- JavaScript `s.endsWith p` (modelled on the character list). -/
def strEndsWith (s p : String) : Bool :=
  decide (p.data <:+ s.data)

/-- JavaScript `s.startsWith p`. -/
def strStartsWith (s p : String) : Bool :=
  decide (p.data <+: s.data)

/-- JavaScript `s.includes sub`. -/
def strContainsSub (s sub : String) : Bool :=
  decide (sub.data <:+: s.data)

/-- JavaScript `s.slice 0 (-n)`: drop the last `n` characters. -/
def strDropRight (s : String) (n : Nat) : String :=
  String.mk (s.data.take (s.data.length - n))

/-- JavaScript `s.charAt(0).toUpperCase() + s.slice(1)`. -/
def capitalize (s : String) : String :=
  match s.data with
  | [] => ""
  | c :: cs => String.mk (c.toUpper :: cs)

/-- The `removeWhitespace` helper of `entity.ts`: replace every whitespace
character by a dash (JS `str.replace(/\s/g, "-")`). -/
def removeWhitespace (s : String) : String :=
  String.mk (s.data.map (fun c => if c.isWhitespace then '-' else c))

/-- Replace every occurrence of the character `c` in `s` by the string `rep`
(JS `s.replace(/c/g, rep)`). -/
def replaceChar (c : Char) (rep : String) (s : String) : String :=
  String.join (s.data.map (fun ch => if ch = c then rep else String.mk [ch]))

/-- The escaping used for generic parameters in the ER emitter:
angle brackets become entities (ampersands are left alone here). -/
def escapeAngles (s : String) : String :=
  replaceChar '>' "&gt;" (replaceChar '<' "&lt;" s)

/-- The escaping used for tuple/union/intersection annotations in the ER
emitter: `<`, `>` and then `&` are replaced in sequence, exactly as the three
chained `.replace` calls in the source do (so the `&` of a freshly inserted
entity is escaped again). -/
def escapeAngAmp (s : String) : String :=
  replaceChar '&' "&amp;" (escapeAngles s)

/-- JavaScript `s.trim()`. -/
def strTrim (s : String) : String :=
  s.trim

/-- Registry metadata attached to a schema node, as consulted by
`getEntityName` in `entity.ts` (fields `entityName`, `title`, `description`). -/
structure Meta where
  entityName : Option String := none
  title : Option String := none
  description : Option String := none
  deriving DecidableEq

/-- String checks carried in a Zod string definition (`def.checks`). -/
inductive StrCheck where
  | minLength (value : Nat)
  | maxLength (value : Nat)
  | fmt (format : String)
  deriving DecidableEq

/-- The pieces of a Zod string definition that the generator consults:
the top-level format (`def.format`), the checks array, and the registry
metadata `targetEntityName` attached by `idRef`. -/
structure StrMeta where
  format : Option String := none
  checks : List StrCheck := []
  ref : Option String := none
  deriving DecidableEq

/-- Shallow embedding of the Zod schema nodes handled by the generator
(discriminated by `schema.def.type` in the source).  `lazy` carries an
optional index into the environment of top-level schemas: `none` models
a getter that throws; `union` carries an optional discriminator, mirroring
the source checks of the form `def.type === "union" && def.discriminator`. -/
inductive Zod where
  | str (sm : StrMeta)
  | number (minValue maxValue : Option Int)
  | bigint
  | boolean
  | date
  | symbol
  | null
  | undef
  | array (element : Zod)
  | object (meta : Meta) (shape : List (String × Zod))
  | enum (entries : List String)
  | literal (value : JsLit)
  | record (keyType valueType : Zod)
  | map (keyType valueType : Zod)
  | set (valueType : Zod)
  | promise (innerType : Option Zod)
  | tuple (items : List Zod) (rest : Option Zod)
  | optional (inner : Zod)
  | nullable (inner : Zod)
  | defaulted (inner : Zod)
  | lazy (target : Option Nat)
  | union (meta : Meta) (discriminator : Option String) (options : List Zod)
  | intersection (left right : Zod)
  | pipe (out : Option Zod)

/-- Resolve a lazy getter against the environment of top-level schemas.
`none` means the getter throws. -/
def resolveLazy (env : List Zod) : Option Nat → Option Zod
  | some i => env.get? i
  | none => none

/-- The registry metadata `targetEntityName` of a node (set by `idRef` on the
cloned key-field schema; only string nodes carry it in this model). -/
def regTarget : Zod → Option String
  | .str sm => sm.ref
  | _ => none

/-- Whether `schema.def.type === "object"`. -/
def Zod.isObjectNode : Zod → Bool
  | .object _ _ => true
  | _ => false

/-- Whether `schema.def.type === "string"`. -/
def Zod.isStrNode : Zod → Bool
  | .str _ => true
  | _ => false

/-- Whether `schema.def.type === "optional"`. -/
def Zod.isOptionalNode : Zod → Bool
  | .optional _ => true
  | _ => false

/-- Whether `schema.def.type === "array"`. -/
def Zod.isArrayNode : Zod → Bool
  | .array _ => true
  | _ => false

/-- Whether the node is a discriminated union
(`def.type === "union" && def.discriminator`). -/
def Zod.isUnionDiscNode : Zod → Bool
  | .union _ (some _) _ => true
  | _ => false

/-- JavaScript object-shape lookup `shape[key]` (first binding wins, as in
an object literal where keys are unique anyway). -/
def shapeLookup (shape : List (String × Zod)) (key : String) : Option Zod :=
  (shape.find? (fun kv => kv.1 == key)).map (·.2)

/-- The `while` loop of the graph builder that peels
`optional` / `nullable` / `default` wrappers before recursing into a field. -/
def unwrapONDef : Zod → Zod
  | .optional inner => unwrapONDef inner
  | .nullable inner => unwrapONDef inner
  | .defaulted inner => unwrapONDef inner
  | z => z

/-- The `getEntityName` function of `entity.ts`: registry `entityName`, then
`title` and `description` (whitespace replaced by dashes), then the
capitalized parent field name, else `undefined`. -/
def getEntityName (meta : Meta) (parentFieldName : Option String) : Option String :=
  match truthySome meta.entityName, meta.entityName with
  | true, some v => some v
  | _, _ =>
    match truthySome meta.title, meta.title with
    | true, some t => some (removeWhitespace t)
    | _, _ =>
      match truthySome meta.description, meta.description with
      | true, some d => some (removeWhitespace d)
      | _, _ =>
        match truthySome parentFieldName, parentFieldName with
        | true, some p => some (capitalize p)
        | _, _ => none

/-- The `def.values` array consulted for discriminator extraction
(`discField?.def?.values ?? []`, then the first element): literals carry
their value, other node kinds have no `values`. -/
def defValuesHead : Zod → Option JsLit
  | .literal v => some v
  | _ => none

/-- The `getFieldType` function of the generator: renders the display-type
string of a field.  Fuel makes the recursion total; `.error ()` only means
the embedding ran out of fuel (the TypeScript function itself never throws:
its lazy branch catches the getter's exception and returns `"Entity"`). -/
def getFieldType (env : List Zod) : Nat → Zod → String → String → Except Unit String
  | 0, _, _, _ => .error ()
  | fuel+1, z, fieldName, entityName =>
    match z with
    | .str _ => .ok "string"
    | .number _ _ => .ok "number"
    | .bigint => .ok "bigint"
    | .boolean => .ok "boolean"
    | .date => .ok "date"
    | .symbol => .ok "symbol"
    | .null => .ok "null"
    | .undef => .ok "undefined"
    | .array element => do
      let t ← getFieldType env fuel element fieldName entityName
      .ok (t ++ "[]")
    | .object meta _ =>
      .ok (jsOrOpt (getEntityName meta (some fieldName))
            (if fieldName = "" then "Entity" else capitalize fieldName))
    | .enum _ => .ok "string"
    | .literal v => .ok v.typeOf
    | .record keyType valueType => do
      let kt ← getFieldType env fuel keyType fieldName entityName
      let vt ← getFieldType env fuel valueType fieldName entityName
      .ok s!"Record<{kt}, {vt}>"
    | .map keyType valueType => do
      let kt ← getFieldType env fuel keyType fieldName entityName
      let vt ← getFieldType env fuel valueType fieldName entityName
      .ok s!"Map<{kt}, {vt}>"
    | .set valueType => do
      let vt ← getFieldType env fuel valueType fieldName entityName
      .ok s!"Set<{vt}>"
    | .promise innerType =>
      match innerType with
      | some i => do
        let t ← getFieldType env fuel i fieldName entityName
        .ok s!"Promise<{t}>"
      | none => .ok "Promise<unknown>"
    | .tuple items rest => do
      let itemTypes ← items.mapM (fun i => getFieldType env fuel i fieldName entityName)
      let allTypes ← match rest with
        | some r => do
          let rt ← getFieldType env fuel r fieldName entityName
          pure (itemTypes ++ [s!"...{rt}[]"])
        | none => pure itemTypes
      let joined := String.intercalate ", " allTypes
      .ok s!"[{joined}]"
    | .optional inner => getFieldType env fuel inner fieldName entityName
    | .nullable inner => getFieldType env fuel inner fieldName entityName
    | .defaulted inner => getFieldType env fuel inner fieldName entityName
    | .lazy t =>
      match resolveLazy env t with
      | none => .ok "Entity"
      | some r =>
        if r.isObjectNode then .ok (jsOr entityName "Entity")
        else getFieldType env fuel r fieldName entityName
    | .union meta disc opts =>
      match disc with
      | some _ =>
        .ok (jsOrOpt (getEntityName meta (some fieldName))
              (if fieldName = "" then "Union" else capitalize fieldName))
      | none => do
        let optionTypes ← opts.mapM (fun o => getFieldType env fuel o fieldName entityName)
        .ok (if optionTypes.length ≠ 0 then String.intercalate " | " optionTypes else "union")
    | .intersection left right => do
      let lt ← getFieldType env fuel left fieldName entityName
      let rt ← getFieldType env fuel right fieldName entityName
      .ok s!"{lt} & {rt}"
    | .pipe out =>
      match out with
      | some o => getFieldType env fuel o fieldName entityName
      | none => .ok "unknown"

/-- The `isFieldOptional` function of the generator.  The lazy branch of the
source catches the getter's exception and reports `false`. -/
def isFieldOptional (env : List Zod) : Nat → Zod → Except Unit Bool
  | 0, _ => .error ()
  | fuel+1, z =>
    match z with
    | .optional _ => .ok true
    | .defaulted _ => .ok true
    | .lazy t =>
      match resolveLazy env t with
      | none => .ok false
      | some r => isFieldOptional env fuel r
    | _ => .ok false

/-- The string branch of `getFieldValidation`: id-reference tag, top-level
format, legacy format checks, then min/max length (with the source's
falsy-zero fallbacks `value || 1` and `value || 100`). -/
def stringValidations (sm : StrMeta) : List String :=
  (match sm.ref with
    | some r => if r ≠ "" then [s!"ref: {r}"] else []
    | none => [])
  ++ (if sm.format == some "email" then ["email"] else [])
  ++ (if sm.format == some "uuid" then ["uuid"] else [])
  ++ (if sm.format == some "url" then ["url"] else [])
  ++ (if sm.checks.any (fun c => match c with | .fmt f => f == "email" | _ => false)
      then ["email"] else [])
  ++ (if sm.checks.any (fun c => match c with | .fmt f => f == "uuid" | _ => false)
      then ["uuid"] else [])
  ++ (if sm.checks.any (fun c => match c with | .fmt f => f == "url" | _ => false)
      then ["url"] else [])
  ++ (match sm.checks.find? (fun c => match c with | .minLength _ => true | _ => false) with
    | some (.minLength v) => [s!"min: {if v == 0 then 1 else v}"]
    | _ => [])
  ++ (match sm.checks.find? (fun c => match c with | .maxLength _ => true | _ => false) with
    | some (.maxLength v) => [s!"max: {if v == 0 then 100 else v}"]
    | _ => [])

/-- The number branch of `getFieldValidation`: a present (finite) lower bound
of exactly 0 renders as `positive`, other bounds as `min:`/`max:`. -/
def numberValidations (minValue maxValue : Option Int) : List String :=
  (match minValue with
    | some n => if n = 0 then ["positive"] else [s!"min: {n}"]
    | none => [])
  ++ (match maxValue with
    | some n => [s!"max: {n}"]
    | none => [])

/-- The `getFieldValidation` function of the generator.  Its lazy branch
calls the getter WITHOUT a try/catch, so a throwing getter propagates
(`.error ()`); running out of fuel uses the same error channel. -/
def getFieldValidation (env : List Zod) : Nat → Zod → Except Unit (List String)
  | 0, _ => .error ()
  | fuel+1, z =>
    match z with
    | .optional inner => getFieldValidation env fuel inner
    | .nullable inner => getFieldValidation env fuel inner
    | .defaulted inner => getFieldValidation env fuel inner
    | .lazy t =>
      match resolveLazy env t with
      | none => .error ()
      | some r => getFieldValidation env fuel r
    | .pipe (some o) => getFieldValidation env fuel o
    | .array element => getFieldValidation env fuel element
    | .str sm => .ok (stringValidations sm)
    | .number mn mx => .ok (numberValidations mn mx)
    | .enum entries =>
      let e := String.intercalate ", " entries
      .ok [s!"enum: {e}"]
    | .union _ none opts =>
      .ok (if opts.length ≠ 0
            ∧ opts.all (fun o => match o with | .literal _ => true | _ => false)
        then
          let e := String.intercalate ", "
            (opts.map (fun o => match o with | .literal v => v.asString | _ => ""))
          [s!"enum: {e}"]
        else [])
    | .literal v =>
      let lv := v.asString
      .ok [s!"literal: {lv}"]
    | _ => .ok []

/-- One subtype record of a discriminated union. -/
structure UnionSubtype where
  name : String
  discriminatorValue : String
  deriving DecidableEq

/-- The `unionRelationships` bookkeeping of a base union entity. -/
structure UnionRelationships where
  baseEntity : String
  subtypes : List UnionSubtype
  deriving DecidableEq

/-- The internal `SchemaField` record of `mermaid-types.ts`
(the brand key is not consulted by the generator and is omitted). -/
structure SchemaField where
  name : String
  type : String
  isOptional : Bool
  validation : List String
  description : Option String
  isIdReference : Bool
  referencedEntity : Option String
  deriving DecidableEq

/-- The internal `SchemaEntity` record of `mermaid-types.ts`. -/
structure SchemaEntity where
  name : String
  fields : List SchemaField
  description : Option String
  unionRelationships : Option UnionRelationships
  deriving DecidableEq

/-- The tail of the id-reference detection chain of the graph builder:
following the source's `else if (isOptional && type === "optional")` and
`else if (type === "array")` chain, here written as one match on the node
kind and the optionality flag — an optional wrapper around a string
reference, or an array whose element is a string reference. -/
def detectIdRefRest (isOpt : Bool) (fieldSchema : Zod) : Bool × Option String :=
  match fieldSchema, isOpt with
  | .optional inner, true =>
    if inner.isStrNode = true ∧ truthySome (regTarget inner) = true then
      (true, regTarget inner)
    else (false, none)
  | .array element, _ =>
    if element.isStrNode = true ∧ truthySome (regTarget element) = true then
      (true, regTarget element)
    else (false, none)
  | _, _ => (false, none)

/-- The first link of the detection chain: the field itself, with rendered
type `string` and registry metadata attached. -/
def detectIdRef (fieldType : String) (isOpt : Bool) (fieldSchema : Zod) : Bool × Option String :=
  if fieldType = "string" ∧ truthySome (regTarget fieldSchema) = true then
    (true, regTarget fieldSchema)
  else detectIdRefRest isOpt fieldSchema

/-- Build the `SchemaField` for one member of an object shape (the body of
the field map in `parseSchemaToEntities`). -/
def mkField (env : List Zod) (fuel : Nat) (entityName fieldName : String) (fieldSchema : Zod) :
    Except Unit SchemaField := do
  let fieldType ← getFieldType env fuel fieldSchema fieldName entityName
  let isOpt ← isFieldOptional env fuel fieldSchema
  let validation ← getFieldValidation env fuel fieldSchema
  let idr := detectIdRef fieldType isOpt fieldSchema
  .ok { name := fieldName, type := fieldType, isOptional := isOpt, validation := validation,
        description := none, isIdReference := idr.1, referencedEntity := idr.2 }

/-- Insertion into the `idReferences` set (insertion order, no duplicates). -/
def insertUnique (l : List String) (s : String) : List String :=
  if s ∈ l then l else l ++ [s]

/-- Collect the `idReferences` set from the constructed fields, in field
order, exactly as the source adds to the set during the field map. -/
def collectRefs (fields : List SchemaField) : List String :=
  fields.foldl (fun acc f =>
    if f.isIdReference = true ∧ truthySome f.referencedEntity = true then
      insertUnique acc (f.referencedEntity.getD "")
    else acc) []

/-- The placeholder loop at the end of `parseSchemaToEntities`: for each
collected reference target, append an empty placeholder entity unless an
entity of that name is already present in this invocation's list. -/
def placeholderFold (refs : List String) (entities : List SchemaEntity) : List SchemaEntity :=
  refs.foldl (fun acc r =>
    if (acc.find? (fun e => e.name == r)).isSome then acc
    else acc ++ [{ name := r, fields := [], description := none, unionRelationships := none }])
    entities

/-- Build the `SchemaField` for one member of a union option's shape (the
source's option field map performs no id-reference detection). -/
def mkOptionField (env : List Zod) (fuel : Nat) (entityName fieldName : String)
    (fieldSchema : Zod) : Except Unit SchemaField := do
  let fieldType ← getFieldType env fuel fieldSchema fieldName entityName
  let isOpt ← isFieldOptional env fuel fieldSchema
  let validation ← getFieldValidation env fuel fieldSchema
  .ok { name := fieldName, type := fieldType, isOptional := isOpt, validation := validation,
        description := none, isIdReference := false, referencedEntity := none }

/-- Discriminator-value extraction for the base entity's enum line
(`opt.def.shape[discriminator]?.def?.values ?? []`, first element).  A
non-object option has no `shape`, so the property access throws. -/
def discValueOf (disc : String) : Zod → Except Unit (Option JsLit)
  | .object _ shape => .ok ((shapeLookup shape disc).bind defValuesHead)
  | _ => .error ()

/-- JavaScript `values.join(", ")` where a missing value stringifies to the
empty string (as `Array.prototype.join` does for `undefined`). -/
def joinDiscValues (vals : List (Option JsLit)) : String :=
  String.intercalate ", " (vals.map (fun v => match v with
    | some l => l.asString
    | none => ""))

/-- The result of processing one (object) option of a discriminated union. -/
structure UnionStepOut where
  entity : SchemaEntity
  subtype : UnionSubtype
  nested : List SchemaEntity

/-- The core of `parseSchemaToEntities`.  `entityNameDefault` is
`options.entityName`, the only piece of the options record the source
function reads; it is threaded unchanged through the recursion exactly as
the source threads `options`.  Fuel decreases on every recursive call;
`.error ()` is either a JavaScript exception propagating out of the
function (a throwing lazy getter reached by `getFieldValidation`) or fuel
exhaustion. -/
def parseCore (env : List Zod) : Nat → String → Zod → Option String →
    Except Unit (List SchemaEntity)
  | 0, _, _, _ => .error ()
  | fuel+1, entityNameDefault, schema, parentFieldName =>
    match schema with
    | .lazy t =>
      (match resolveLazy env t with
        | none => .ok []
        | some r =>
          match parseCore env fuel entityNameDefault r parentFieldName with
          | .error _ => .ok []
          | .ok es => .ok es)
    | .object meta shape => do
      let entityName := jsOrOpt (getEntityName meta parentFieldName) entityNameDefault
      let fields ← shape.mapM (fun kv => mkField env fuel entityName kv.1 kv.2)
      let refs := collectRefs fields
      let nested ← shape.mapM (fun kv =>
        let w := unwrapONDef kv.2
        if w.isObjectNode = true then
          parseCore env fuel entityNameDefault w (some kv.1)
        else if w.isUnionDiscNode = true then
          parseCore env fuel entityNameDefault w (some kv.1)
        else
          match w with
          | .lazy t =>
            (match resolveLazy env t with
              | none => .ok []
              | some r =>
                if r.isObjectNode = true ∨ r.isUnionDiscNode = true then
                  match parseCore env fuel entityNameDefault r (some kv.1) with
                  | .error _ => .ok []
                  | .ok es => .ok es
                else .ok [])
          | _ => .ok [])
      let entities := { name := entityName, fields := fields, description := none,
                        unionRelationships := none } :: nested.flatten
      .ok (placeholderFold refs entities)
    | .union meta (some disc) unionOptions => do
      let unionEntityName := jsOrOpt (getEntityName meta parentFieldName) entityNameDefault
      let discValues ← unionOptions.mapM (discValueOf disc)
      let joined := joinDiscValues discValues
      let discriminatorField : SchemaField :=
        { name := disc, type := "string", isOptional := false,
          validation := [s!"enum: {joined}"], description := none,
          isIdReference := false, referencedEntity := none }
      let steps ← unionOptions.mapM (fun opt =>
        match opt with
        | .object ometa oshape => do
          let rawValue := (shapeLookup oshape disc).bind defValuesHead
          let discriminatorValue := match rawValue with | some v => v.asString | none => ""
          let optionEntityName :=
            jsOrOpt (getEntityName ometa none) s!"{unionEntityName}_{discriminatorValue}"
          let optionFields ← (oshape.filter (fun kv => kv.1 != disc)).mapM
            (fun kv => mkOptionField env fuel optionEntityName kv.1 kv.2)
          let nested ← (oshape.filter (fun kv => kv.1 != disc)).mapM (fun kv =>
            if kv.2.isObjectNode = true then
              parseCore env fuel entityNameDefault kv.2 (some kv.1)
            else
              match kv.2 with
              | .lazy t =>
                (match resolveLazy env t with
                  | none => .ok []
                  | some r =>
                    if r.isObjectNode = true then
                      match parseCore env fuel entityNameDefault r (some kv.1) with
                      | .error _ => .ok []
                      | .ok es => .ok es
                    else .ok [])
              | _ => .ok [])
          .ok (some { entity := { name := optionEntityName, fields := optionFields,
                                  description := none, unionRelationships := none },
                      subtype := { name := optionEntityName,
                                   discriminatorValue := discriminatorValue },
                      nested := nested.flatten })
        | _ => .ok (none : Option UnionStepOut))
      let justSteps := steps.filterMap id
      let unionSubtypes := justSteps.map (·.subtype)
      let baseEntity : SchemaEntity :=
        { name := unionEntityName, fields := [discriminatorField], description := none,
          unionRelationships := some { baseEntity := unionEntityName,
                                       subtypes := unionSubtypes } }
      let entities := baseEntity :: (justSteps.map (fun st => st.entity :: st.nested)).flatten
      .ok (placeholderFold [] entities)
    | _ => .ok []

/-- The structure holding the caller-facing options of the generator
(every field optional, as in the TypeScript `MermaidOptions`; the metadata
registry is modelled by the node-attached metadata instead). -/
structure MermaidOptions where
  diagramType : Option String := none
  includeValidation : Option Bool := none
  includeOptional : Option Bool := none
  entityName : Option String := none

/-- Options after merging with `DEFAULT_OPTIONS`
(`{...DEFAULT_OPTIONS, ...options}`). -/
structure MergedOptions where
  diagramType : String
  includeValidation : Bool
  includeOptional : Bool
  entityName : String

/-- The spread-merge with `DEFAULT_OPTIONS` performed by
`generateMermaidDiagram`. -/
def mergeOptions (o : MermaidOptions) : MergedOptions :=
  { diagramType := o.diagramType.getD "er",
    includeValidation := o.includeValidation.getD true,
    includeOptional := o.includeOptional.getD true,
    entityName := o.entityName.getD "Entity" }

/-- The `parseSchemaToEntities` entry point: the source receives the merged
options record, of which the graph builder only ever reads `entityName`. -/
def parseSchemaToEntities (env : List Zod) (fuel : Nat) (options : MergedOptions)
    (schema : Zod) (parentFieldName : Option String) : Except Unit (List SchemaEntity) :=
  parseCore env fuel options.entityName schema parentFieldName

/-- The regular expression match of the ER emitter for generic display types,
`^([A-Za-z]+)<(.+)>$` : a non-empty alphabetic prefix, a `<`, at least one
character, and a final `>`. -/
def genericSplit (s : String) : Option (String × String) :=
  let cs := s.data
  let base := cs.takeWhile Char.isAlpha
  let rest := cs.dropWhile Char.isAlpha
  match base, rest with
  | [], _ => none
  | _, '<' :: tail =>
    if 2 ≤ tail.length ∧ tail.getLast? = some '>' then
      some (String.mk base, String.mk tail.dropLast)
    else none
  | _, _ => none

/-- Render one field line of an ER entity block: the source rewrites generic,
tuple, union and intersection display types into a simple type plus a
prepended annotation, then appends description/validation annotations when
`includeValidation` is on. -/
def erFieldLine (includeValidation : Bool) (field : SchemaField) : String :=
  let p1 := match genericSplit field.type with
    | some bp =>
      let escapedParams := escapeAngles bp.2
      (bp.1, s!"&lt;{escapedParams}&gt;" :: field.validation)
    | none => (field.type, field.validation)
  let p2 := if strStartsWith p1.1 "[" ∧ strEndsWith p1.1 "]" then
      ("Tuple", escapeAngAmp p1.1 :: p1.2) else p1
  let p3 := if strContainsSub p2.1 " | " then ("union", escapeAngAmp p2.1 :: p2.2) else p2
  let p4 := if strContainsSub p3.1 " & " then ("intersection", escapeAngAmp p3.1 :: p3.2) else p3
  let ft := p4.1
  let n := field.name
  let fieldLine := s!"        {ft} {n}"
  let descAnn := match field.description with
    | some d =>
      let t := strTrim d
      if t ≠ "" ∧ t ≠ p4.1 then [t] else []
    | none => []
  let annotations := descAnn ++ (if includeValidation ∧ p4.2.length ≠ 0 then p4.2 else [])
  if annotations.length ≠ 0 then
    let ann := String.intercalate ", " annotations
    s!"{fieldLine} \"{ann}\""
  else fieldLine

/-- The ER entity block for one entity; empty placeholder entities are
skipped (they still appear through relationship lines). -/
def erEntityBlock (includeValidation : Bool) (entity : SchemaEntity) : List String :=
  if entity.fields.length = 0 then []
  else
    let n := entity.name
    (s!"    {n} \x7b" :: entity.fields.map (erFieldLine includeValidation)) ++ ["    \x7d"]

/-- The relationship lines the ER emitter produces for one field of one
entity: an embedded-object edge, or else an id-reference edge, followed by a
self-referential edge for array fields of the enclosing entity's own type. -/
def relLinesForField (entities : List SchemaEntity) (entity : SchemaEntity)
    (field : SchemaField) : List String :=
  let referencedEntity := entities.find? (fun e => e.name == field.type)
  let en := entity.name
  let fn := field.name
  let first :=
    if referencedEntity.isSome = true ∧ field.type ≠ "string" ∧ field.type ≠ "number"
        ∧ field.type ≠ "boolean" ∧ field.type ≠ "date"
        ∧ strEndsWith field.type "[]" = false then
      let relationshipType := if field.isOptional then "||--o\x7b" else "||--||"
      let rn := (referencedEntity.map (·.name)).getD ""
      [s!"    {en} {relationshipType} {rn} : \"{fn}\""]
    else if field.isIdReference = true ∧ truthySome field.referencedEntity = true then
      let relationshipType :=
        if strEndsWith field.type "[]" then "\x7do--o\x7b"
        else if field.isOptional then "\x7do--o\x7b"
        else "\x7do--||"
      let r := field.referencedEntity.getD ""
      let targetName := ((entities.find? (fun e => e.name == r)).map (·.name)).getD r
      [s!"    {en} {relationshipType} {targetName} : \"{fn}\""]
    else []
  let selfLoop :=
    if strEndsWith field.type "[]" then
      let baseType := strDropRight field.type 2
      match entities.find? (fun e => e.name == baseType) with
      | some re =>
        if re.name == entity.name then
          let relationshipType := if field.isOptional then "||--o\x7b" else "||--||"
          [s!"    {en} {relationshipType} {en} : \"{fn}\""]
        else []
      | none => []
    else []
  first ++ selfLoop

/-- The union-relationship lines of the ER emitter (one per subtype of each
entity carrying `unionRelationships`, labeled with the discriminator value). -/
def erUnionLines (entities : List SchemaEntity) : List String :=
  (entities.map (fun e => match e.unionRelationships with
    | some ur => ur.subtypes.map (fun st =>
        let b := ur.baseEntity
        let sn := st.name
        let dv := st.discriminatorValue
        s!"    {b} ||--|| {sn} : \"{dv}\"")
    | none => [])).flatten

/-- All lines of the ER diagram, in emission order: header, entity blocks,
per-field relationship lines, union relationship lines. -/
def erDiagramLines (entities : List SchemaEntity) (includeValidation : Bool) : List String :=
  "erDiagram"
    :: ((entities.map (erEntityBlock includeValidation)).flatten
      ++ (entities.map
            (fun e => (e.fields.map (relLinesForField entities e)).flatten)).flatten
      ++ erUnionLines entities)

/-- The `generateERDiagram` emitter: of the options record it only reads
`includeValidation`. -/
def generateERDiagram (entities : List SchemaEntity) (options : MergedOptions) : String :=
  String.intercalate "\n" (erDiagramLines entities options.includeValidation)

/-- One property line of a class block (visibility is `+` for optional and
required fields alike, as in the source). -/
def classFieldLine (field : SchemaField) : String :=
  let n := field.name
  let t := field.type
  let base := s!"        +{n}: {t}"
  match field.description with
  | some d =>
    let tr := strTrim d
    if tr ≠ "" ∧ tr ≠ field.type then s!"{base} // {tr}" else base
  | none => base

/-- The relationship lines the class emitter produces for one field. -/
def classRelLinesForField (entities : List SchemaEntity) (entity : SchemaEntity)
    (field : SchemaField) : List String :=
  let referencedEntity := entities.find? (fun e => e.name == field.type)
  let en := entity.name
  let fn := field.name
  let first :=
    if referencedEntity.isSome = true ∧ field.type ≠ "string" ∧ field.type ≠ "number"
        ∧ field.type ≠ "boolean" ∧ field.type ≠ "date"
        ∧ strEndsWith field.type "[]" = false then
      let rn := (referencedEntity.map (·.name)).getD ""
      [s!"    {en} *-- {rn} : {fn}"]
    else if field.isIdReference = true ∧ truthySome field.referencedEntity = true then
      let r := field.referencedEntity.getD ""
      [s!"    {en} --> {r} : {fn} (ref)"]
    else []
  let selfLoop :=
    if strEndsWith field.type "[]" then
      let baseType := strDropRight field.type 2
      match entities.find? (fun e => e.name == baseType) with
      | some re =>
        if re.name == entity.name then [s!"    {en} *-- {en} : {fn}"]
        else []
      | none => []
    else []
  first ++ selfLoop

/-- The `generateClassDiagram` emitter (placeholders included, empty body). -/
def generateClassDiagram (entities : List SchemaEntity) : String :=
  let blockLines := (entities.map (fun e =>
    let n := e.name
    (s!"    class {n} \x7b" :: e.fields.map classFieldLine) ++ ["    \x7d"])).flatten
  let relLines := (entities.map
    (fun e => (e.fields.map (classRelLinesForField entities e)).flatten)).flatten
  let unionLines := (entities.map (fun e => match e.unionRelationships with
    | some ur => ur.subtypes.map (fun st =>
        let b := ur.baseEntity
        let sn := st.name
        let dv := st.discriminatorValue
        s!"    {b} <|-- {sn} : {dv}")
    | none => [])).flatten
  String.intercalate "\n" ("classDiagram" :: (blockLines ++ relLines ++ unionLines))

/-- The flowchart lines produced for one field: the field node, its edge from
the entity, an edge to an embedded entity, a dashed edge for id references,
and a self-referential edge for arrays of the enclosing type. -/
def flowFieldLines (entities : List SchemaEntity) (entity : SchemaEntity)
    (field : SchemaField) : List String :=
  let en := entity.name
  let fn := field.name
  let t := field.type
  let label := match field.description with
    | some d =>
      let tr := strTrim d
      if tr ≠ "" ∧ tr ≠ field.type then s!"{fn}: {t}\\n{tr}" else s!"{fn}: {t}"
    | none => s!"{fn}: {t}"
  let fieldNode := s!"{en}_{fn}[\"{label}\"]"
  let base := [s!"    {fieldNode}", s!"    {en} --> {fieldNode}"]
  let referencedEntity := entities.find? (fun e => e.name == field.type)
  let emb :=
    if referencedEntity.isSome = true ∧ field.type ≠ "string" ∧ field.type ≠ "number"
        ∧ field.type ≠ "boolean" ∧ field.type ≠ "date"
        ∧ strEndsWith field.type "[]" = false then
      let rn := (referencedEntity.map (·.name)).getD ""
      [s!"    {fieldNode} --> {rn}"]
    else []
  let idr :=
    if field.isIdReference = true ∧ truthySome field.referencedEntity = true then
      let r := field.referencedEntity.getD ""
      [s!"    {fieldNode} -.-> {r}"]
    else []
  let selfLoop :=
    if strEndsWith field.type "[]" then
      let baseType := strDropRight field.type 2
      match entities.find? (fun e => e.name == baseType) with
      | some re =>
        if re.name == entity.name then [s!"    {fieldNode} --> {en}"]
        else []
      | none => []
    else []
  base ++ emb ++ idr ++ selfLoop

/-- The `generateFlowchartDiagram` emitter. -/
def generateFlowchartDiagram (entities : List SchemaEntity) : String :=
  let nodeLines := entities.map (fun e =>
    let n := e.name
    s!"    {n}[\"{n}\"]")
  let fieldLines := (entities.map
    (fun e => (e.fields.map (flowFieldLines entities e)).flatten)).flatten
  let unionLines := (entities.map (fun e => match e.unionRelationships with
    | some ur => ur.subtypes.map (fun st =>
        let b := ur.baseEntity
        let sn := st.name
        s!"    {b} -.-> {sn}")
    | none => [])).flatten
  String.intercalate "\n" ("flowchart TD" :: (nodeLines ++ fieldLines ++ unionLines))

/-- The runtime error classes of the library (`utils/errors.ts`): the base
class `ZodMermaidError` has the three leaves `SchemaParseError`,
`DiagramGenerationError` and `ValidationError`; `plainError` is a built-in
JavaScript `Error` that is NOT part of that family.  There is no
`ReferenceTagError` class in the source. -/
inductive JsError where
  | plainError (message : String)
  | schemaParse (message : String)
  | diagramGeneration (message : String)
  | validationErr (message : String)
  deriving DecidableEq

/-- Whether a thrown error is an `instanceof ZodMermaidError`. -/
def JsError.isZodMermaidError : JsError → Bool
  | .plainError _ => false
  | _ => true

/-- The public entry point accepts a single schema or an array of schemas. -/
inductive SchemaInput where
  | single (schema : Zod)
  | many (schemas : List Zod)

/-- The schema loop of `generateMermaidDiagram`: parse each root and
concatenate the resulting entity lists. -/
def buildAllEntities (env : List Zod) (fuel : Nat) (options : MergedOptions)
    (schemas : List Zod) : Except Unit (List SchemaEntity) := do
  let lists ← schemas.mapM (fun s => parseSchemaToEntities env fuel options s none)
  .ok lists.flatten

/-- The public `generateMermaidDiagram` function: merge options with the
defaults, normalize the input to a list, build the entity graph, then select
the emitter.  Errors escaping the body that are not `ZodMermaidError`s are
wrapped in a `SchemaParseError`; an unsupported diagram type raises a
`DiagramGenerationError` naming the offending value. -/
def generateMermaidDiagram (env : List Zod) (fuel : Nat) (schema : SchemaInput)
    (options : MermaidOptions) : Except JsError String :=
  let mergedOptions := mergeOptions options
  let schemas := match schema with
    | .single s => [s]
    | .many l => l
  match buildAllEntities env fuel mergedOptions schemas with
  | .error _ => .error (.schemaParse "Failed to generate diagram")
  | .ok allEntities =>
    match mergedOptions.diagramType with
    | "er" => .ok (generateERDiagram allEntities mergedOptions)
    | "class" => .ok (generateClassDiagram allEntities)
    | "flowchart" => .ok (generateFlowchartDiagram allEntities)
    | other => .error (.diagramGeneration s!"Unsupported diagram type: {other}")

/-- The error message thrown by `idRef` when the key field is missing. -/
def idRefErrMsg (field : String) : String :=
  s!"ID field \x27{field}\x27 not found in schema"

/-- The `idRef` helper of `id-ref.ts`: looks the key field up in the target
object schema and, on success, returns the cloned key-field schema together
with the attached reference metadata (the target entity name); the brand
list that the source may additionally capture is not consulted by the
generator and is omitted here.  When the key field is absent it throws a
plain built-in `Error` — not one of the library's `ZodMermaidError` leaves. -/
def idRef (schema : Zod) (idFieldName : Option String) (entityName : Option String) :
    Except JsError (Zod × String) :=
  match schema with
  | .object meta shape =>
    let field := idFieldName.getD "id"
    match shapeLookup shape field with
    | none => .error (.plainError (idRefErrMsg field))
    | some idFieldSchema =>
      let targetEntityName := jsOrOpt entityName (jsOrOpt meta.description "Unknown")
      .ok (idFieldSchema, targetEntityName)
  | _ => .error (.plainError "schema.shape is undefined")

/-- Bind of a successful `Except` computation. -/
@[simp] theorem exceptBind_ok {ε α β : Type} (a : α) (f : α → Except ε β) :
    (Except.ok a >>= f) = f a := rfl

/-- Bind of a failed `Except` computation. -/
@[simp] theorem exceptBind_err {ε α β : Type} (e : ε) (f : α → Except ε β) :
    ((Except.error e : Except ε α) >>= f) = .error e := rfl

/-- Unfold `pure` for `Except`. -/
@[simp] theorem exceptPure_def {ε α : Type} (a : α) :
    (pure a : Except ε α) = .ok a := rfl

/-- Claim C7: for every schema `S` and every options record `o`,
`generateMermaidDiagram S o` and `generateMermaidDiagram [S] o` return
byte-identical strings (the source normalizes via `Array.isArray`). -/
theorem claim_C7_single_array_equivalence (env : List Zod) (fuel : Nat) (s : Zod)
    (options : MermaidOptions) :
    generateMermaidDiagram env fuel (.single s) options
      = generateMermaidDiagram env fuel (.many [s]) options := rfl

/-- Claim C8: calling `generateMermaidDiagram` with an empty list of schemas
and diagram type `er` returns exactly the header string `erDiagram`, with no
body and no trailing content, whatever the remaining options are. -/
theorem claim_C8_empty_input (env : List Zod) (fuel : Nat) (iv io : Option Bool)
    (en : Option String) :
    generateMermaidDiagram env fuel (.many [])
        { diagramType := some "er", includeValidation := iv,
          includeOptional := io, entityName := en }
      = .ok "erDiagram" := rfl

/-- Claim C10: two runs of `generateMermaidDiagram` that differ only in the
value of the `includeOptional` option produce identical results — the option
is accepted at the interface but read by none of the three emitters nor by
the graph builder. -/
theorem claim_C10_includeOptional_noop (env : List Zod) (fuel : Nat) (schema : SchemaInput)
    (dt : Option String) (iv : Option Bool) (v₁ v₂ : Option Bool) (en : Option String) :
    generateMermaidDiagram env fuel schema
        { diagramType := dt, includeValidation := iv, includeOptional := v₁, entityName := en }
      = generateMermaidDiagram env fuel schema
        { diagramType := dt, includeValidation := iv, includeOptional := v₂, entityName := en } :=
  rfl

/-- The `User` schema of the C9 scenario: a `uuid`-format string `id` and a
string `name` with min length 1 and max length 100, named via a registered
description. -/
def c9UserSchema : Zod := .object { description := some "User" }
  [("id", .str { format := some "uuid" }),
   ("name", .str { checks := [.minLength 1, .maxLength 100] })]

set_option maxRecDepth 8192 in
/-- Claim C9: rendering the `User` scenario schema as an ER diagram yields a
string containing the literal block opener for `User`, the 8-space-indented
field lines with validation labels in the order format tag then min then max,
and the closing brace line. -/
theorem claim_C9_user_scenario :
    ∃ out, generateMermaidDiagram [] 10 (.single c9UserSchema) { diagramType := some "er" }
        = .ok out
      ∧ strContainsSub out "User \x7b" = true
      ∧ strContainsSub out "\n        string id \"uuid\"\n" = true
      ∧ strContainsSub out "\n        string name \"min: 1, max: 100\"\n" = true
      ∧ strContainsSub out "\n    \x7d" = true := by
  refine ⟨_, rfl, ?_, ?_, ?_, ?_⟩ <;> decide

/-- Claim C6 counterexample: for a target schema without an `id` field,
`idRef` throws the plain built-in `Error` with the "field not found" message,
and this error is NOT an instance of the library's `ZodMermaidError` family
(no `ReferenceTagError` class exists in `utils/errors.ts`), refuting the
claim that the failure is a leaf of the single error family. -/
theorem claim_C6_counterexample :
    idRef (.object {} [("name", .str {})]) none none
        = .error (.plainError "ID field \x27id\x27 not found in schema")
      ∧ JsError.isZodMermaidError
          (.plainError "ID field \x27id\x27 not found in schema") = false :=
  ⟨rfl, rfl⟩

/-- Claim C6 amended: whenever the named key field (default `id`) is absent
from the target object schema, `idRef` fails with a plain `Error` whose
message is the "field not found" message — an error that is not part of the
library's `ZodMermaidError` family. -/
theorem claim_C6_amended (m : Meta) (shape : List (String × Zod)) (kf en : Option String)
    (h : shapeLookup shape (kf.getD "id") = none) :
    idRef (.object m shape) kf en = .error (.plainError (idRefErrMsg (kf.getD "id")))
      ∧ JsError.isZodMermaidError (.plainError (idRefErrMsg (kf.getD "id"))) = false := by
  refine ⟨?_, rfl⟩
  simp [idRef, h]

/-- Witness for the amended C6 at a concrete schema lacking the `id` field. -/
theorem claim_C6_amended_witness :
    shapeLookup [("name", Zod.str {})] ((none : Option String).getD "id") = none
      ∧ (idRef (.object {} [("name", .str {})]) none none
            = .error (.plainError (idRefErrMsg "id"))
          ∧ JsError.isZodMermaidError (.plainError (idRefErrMsg "id")) = false) :=
  ⟨rfl, claim_C6_amended {} [("name", .str {})] none none rfl⟩

/-- Claim C4 counterexample: for a schema with one field whose lazy getter
throws, `generateMermaidDiagram` ABORTS with a `SchemaParseError` (the claim
says the build does not abort), because `getFieldValidation` calls the getter
without a try/catch; and the display type the renderer produces for such a
field is `"Entity"`, not `"unknown"` as claimed. -/
theorem claim_C4_counterexample :
    generateMermaidDiagram [] 10 (.single (.object {} [("x", .lazy none)])) {}
        = .error (.schemaParse "Failed to generate diagram")
      ∧ getFieldType [] 10 (.lazy none) "x" "Entity" = .ok "Entity"
      ∧ "Entity" ≠ "unknown" := by
  refine ⟨rfl, rfl, by decide⟩

/-- Claim C4 amended: when a field's lazy getter throws, `getFieldType` and
`isFieldOptional` do recover locally (returning the generic reference type
`"Entity"` — not `"unknown"` — and `false`), but `getFieldValidation` lets
the exception propagate, so the whole build aborts with a `SchemaParseError`
for every schema containing such a field. -/
theorem claim_C4_amended (env : List Zod) (fuel : Nat) (m : Meta) (k en : String)
    (o : MermaidOptions) :
    generateMermaidDiagram env (fuel+2) (.single (.object m [(k, .lazy none)])) o
        = .error (.schemaParse "Failed to generate diagram")
      ∧ getFieldType env (fuel+1) (.lazy none) k en = .ok "Entity"
      ∧ isFieldOptional env (fuel+1) (.lazy none) = .ok false := by
  refine ⟨?_, by simp [getFieldType, resolveLazy], by simp [isFieldOptional, resolveLazy]⟩
  simp [generateMermaidDiagram, buildAllEntities, parseSchemaToEntities, parseCore,
    mkField, getFieldType, isFieldOptional, getFieldValidation, resolveLazy,
    List.mapM.loop]

/-- The `Order` root of the C3 counterexample: one keyed reference to
`Customer`. -/
def c3Order : Zod := .object { description := some "Order" }
  [("customerId", .str { ref := some "Customer" })]

/-- The `Customer` root of the C3 counterexample. -/
def c3Customer : Zod := .object { description := some "Customer" } [("id", .str {})]

/-- A root with two nested objects whose fields both reference `C`, for the
second part of the C3 counterexample. -/
def c3NestedRoot : Zod := .object { description := some "Root" }
  [("a", .object {} [("x", .str { ref := some "C" })]),
   ("b", .object {} [("y", .str { ref := some "C" })])]

/-- Claim C3 counterexample.  First part: passing `[Order, Customer]` in one
invocation yields the entity list `[Order, Customer(placeholder), Customer]` —
a placeholder is appended for `Customer` even though an entity of that name
exists in the final result list, because the source creates placeholders per
parse invocation (per root), not after full traversal of all roots.  Second
part: one root with two nested objects both referencing `C` yields TWO
placeholders named `C` in a single invocation. -/
theorem claim_C3_counterexample :
    (∃ es, buildAllEntities [] 10 (mergeOptions {}) [c3Order, c3Customer] = .ok es
      ∧ es.map (fun e => (e.name, e.fields.isEmpty))
          = [("Order", false), ("Customer", true), ("Customer", false)])
    ∧ (∃ es, parseCore [] 10 "Entity" c3NestedRoot none = .ok es
      ∧ es.countP (fun e => e.name == "C" && e.fields.isEmpty) = 2) :=
  ⟨⟨_, rfl, by decide⟩, ⟨_, rfl, by decide⟩⟩

/-- Insertion into a duplicate-free list keeps it duplicate-free. -/
theorem insertUnique_nodup (l : List String) (s : String) (h : l.Nodup) :
    (insertUnique l s).Nodup := by
  unfold insertUnique
  split
  · exact h
  · next hmem =>
    rw [List.nodup_append]
    refine ⟨h, List.nodup_singleton s, ?_⟩
    intro a ha hs
    rw [List.mem_singleton] at hs
    subst hs
    exact hmem ha

/-- The reference set collected during the field map never contains
duplicates (it is a JS `Set`). -/
theorem collectRefsAux_nodup (fields : List SchemaField) (acc : List String) (h : acc.Nodup) :
    (fields.foldl (fun a f =>
      if f.isIdReference = true ∧ truthySome f.referencedEntity = true then
        insertUnique a (f.referencedEntity.getD "")
      else a) acc).Nodup := by
  induction fields generalizing acc with
  | nil => simpa using h
  | cons f fs ih =>
    rw [List.foldl_cons]
    apply ih
    split
    · exact insertUnique_nodup _ _ h
    · exact h

/-- Nodup of the collected reference set. -/
theorem collectRefs_nodup (fields : List SchemaField) : (collectRefs fields).Nodup :=
  collectRefsAux_nodup fields [] List.nodup_nil

/-- One step of the placeholder loop, unfolded. -/
theorem placeholderFold_cons (r : String) (rs : List String) (es : List SchemaEntity) :
    placeholderFold (r :: rs) es
      = placeholderFold rs
          (if (es.find? (fun e => e.name == r)).isSome then es
           else es ++ [{ name := r, fields := [], description := none,
                         unionRelationships := none }]) := rfl

/-- Specification of the placeholder loop on a duplicate-free reference set:
it appends only empty entities, each for a collected reference name that has
no entity in the invocation's own list, and at most one per name. -/
theorem placeholderFold_spec (refs : List String) (es : List SchemaEntity) (h : refs.Nodup) :
    ∃ added, placeholderFold refs es = es ++ added
      ∧ (∀ p ∈ added, p.fields = [] ∧ p.name ∈ refs ∧ ∀ e ∈ es, e.name ≠ p.name)
      ∧ (added.map (fun p => p.name)).Nodup := by
  induction refs generalizing es with
  | nil => exact ⟨[], by simp [placeholderFold], by simp, by simp⟩
  | cons r rs ih =>
    rw [List.nodup_cons] at h
    obtain ⟨hr, hrs⟩ := h
    rw [placeholderFold_cons]
    by_cases hfound : (es.find? (fun e => e.name == r)).isSome
    · rw [if_pos hfound]
      obtain ⟨added, heq, hprops, hnd⟩ := ih es hrs
      exact ⟨added, heq, fun p hp =>
        ⟨(hprops p hp).1, List.mem_cons_of_mem r (hprops p hp).2.1, (hprops p hp).2.2⟩, hnd⟩
    · rw [if_neg hfound]
      obtain ⟨added, heq, hprops, hnd⟩ := ih
        (es ++ [{ name := r, fields := [], description := none, unionRelationships := none }])
        hrs
      have hnone : ∀ e ∈ es, e.name ≠ r := by
        intro e he hne
        apply hfound
        rw [List.find?_isSome]
        exact ⟨e, he, by simp [hne]⟩
      refine ⟨{ name := r, fields := [], description := none,
                unionRelationships := none } :: added, by simpa using heq, ?_, ?_⟩
      · intro p hp
        rcases List.mem_cons.mp hp with hph | hpt
        · subst hph
          exact ⟨rfl, List.mem_cons_self r rs, fun e he => hnone e he⟩
        · refine ⟨(hprops p hpt).1, List.mem_cons_of_mem r (hprops p hpt).2.1, ?_⟩
          intro e he
          exact (hprops p hpt).2.2 e (List.mem_append_left _ he)
      · rw [List.map_cons, List.nodup_cons]
        constructor
        · intro hmemr
          obtain ⟨p, hp, hpname⟩ := List.mem_map.mp hmemr
          have := (hprops p hp).2.2
            { name := r, fields := [], description := none, unionRelationships := none }
            (List.mem_append_right _ (List.mem_singleton_self _))
          exact this hpname.symm
        · exact hnd

/-- Claim C3 amended: placeholder synthesis is per parse invocation, not per
`generateMermaidDiagram` invocation.  Within one invocation of
`parseSchemaToEntities`, the reference names collected from its direct fields
are duplicate-free, and the placeholder loop appends, for each such name, at
most one empty entity, and only when no entity of that name is already in
that invocation's own entity list; across roots and nested invocations the
same name may receive several placeholders. -/
theorem claim_C3_amended (refs : List String) (es : List SchemaEntity) (h : refs.Nodup) :
    (∃ added, placeholderFold refs es = es ++ added
      ∧ (∀ p ∈ added, p.fields = [] ∧ p.name ∈ refs ∧ ∀ e ∈ es, e.name ≠ p.name)
      ∧ (added.map (fun p => p.name)).Nodup)
    ∧ ∀ fields : List SchemaField, (collectRefs fields).Nodup :=
  ⟨placeholderFold_spec refs es h, collectRefs_nodup⟩

/-- Witness for the amended C3 at a concrete reference set and entity list. -/
theorem claim_C3_amended_witness :
    (["A", "B"].Nodup)
    ∧ ((∃ added, placeholderFold ["A", "B"]
            [{ name := "A", fields := [], description := none, unionRelationships := none }]
          = [{ name := "A", fields := [], description := none, unionRelationships := none }]
              ++ added
        ∧ (∀ p ∈ added, p.fields = [] ∧ p.name ∈ ["A", "B"]
            ∧ ∀ e ∈ [({ name := "A", fields := [], description := none,
                        unionRelationships := none } : SchemaEntity)], e.name ≠ p.name)
        ∧ (added.map (fun p => p.name)).Nodup)
      ∧ ∀ fields : List SchemaField, (collectRefs fields).Nodup) :=
  ⟨by decide, claim_C3_amended ["A", "B"]
    [{ name := "A", fields := [], description := none, unionRelationships := none }]
    (by decide)⟩

/-- Inversion for a successful `mapM` over `Except`: every element of the
result comes from a successful application to some element of the input. -/
theorem mapM_ok_mem {α β : Type} (g : α → Except Unit β) :
    ∀ (l : List α) (l' : List β), l.mapM g = .ok l' → ∀ y ∈ l', ∃ x ∈ l, g x = .ok y := by
  intro l
  induction l with
  | nil =>
    intro l' h y hy
    rw [List.mapM_nil] at h
    simp at h
    subst h
    simp at hy
  | cons a as ih =>
    intro l' h y hy
    rw [List.mapM_cons] at h
    cases hga : g a with
    | error e => rw [hga] at h; simp at h
    | ok b =>
      rw [hga] at h
      cases hgas : as.mapM g with
      | error e => rw [hgas] at h; simp at h
      | ok bs =>
        rw [hgas] at h
        simp at h
        subst h
        rcases List.mem_cons.mp hy with hyb | hybs
        · exact ⟨a, List.mem_cons_self a as, hyb ▸ hga⟩
        · obtain ⟨x, hx, hgx⟩ := ih bs hgas y hybs
          exact ⟨x, List.mem_cons_of_mem a hx, hgx⟩

/-- The rendered type of an optional-wrapped string field is `"string"`. -/
theorem getFieldType_optional_str (env : List Zod) (fuel : Nat) (sm : StrMeta)
    (k en t : String) (h : getFieldType env fuel (.optional (.str sm)) k en = .ok t) :
    t = "string" := by
  match fuel with
  | 0 => simp [getFieldType] at h
  | 1 => simp [getFieldType] at h
  | f+2 =>
    simp [getFieldType] at h
    exact h.symm

/-- The rendered type of an array-of-string field is `"string[]"`. -/
theorem getFieldType_array_str (env : List Zod) (fuel : Nat) (sm : StrMeta)
    (k en t : String) (h : getFieldType env fuel (.array (.str sm)) k en = .ok t) :
    t = "string[]" := by
  match fuel with
  | 0 => simp [getFieldType] at h
  | 1 => simp [getFieldType] at h
  | f+2 =>
    simp [getFieldType] at h
    exact h.symm

/-- When the id-reference detection chain flags a field, the rendered type is
`"string"` or `"string[]"` and the detected target is truthy. -/
theorem detectIdRef_spec (env : List Zod) (fuel : Nat) (ft : String) (io : Bool) (v : Zod)
    (k en : String) (hft : getFieldType env fuel v k en = .ok ft)
    (hflag : (detectIdRef ft io v).1 = true) :
    (ft = "string" ∨ ft = "string[]") ∧ truthySome (detectIdRef ft io v).2 = true := by
  by_cases h1 : ft = "string" ∧ truthySome (regTarget v) = true
  · rw [detectIdRef, if_pos h1]
    exact ⟨Or.inl h1.1, h1.2⟩
  · rw [detectIdRef, if_neg h1] at hflag
    rw [detectIdRef, if_neg h1]
    cases v with
    | optional inner =>
      cases io with
      | false => simp [detectIdRefRest] at hflag
      | true =>
        cases inner with
        | str sm =>
          by_cases h3 : Zod.isStrNode (.str sm) = true ∧ truthySome (regTarget (.str sm)) = true
          · rw [detectIdRefRest, if_pos h3]
            refine ⟨Or.inl (getFieldType_optional_str env fuel sm k en ft hft), ?_⟩
            simpa using h3.2
          · rw [detectIdRefRest, if_neg h3] at hflag
            simp at hflag
        | nullable a => simp [detectIdRefRest, Zod.isStrNode] at hflag
        | number a b => simp [detectIdRefRest, Zod.isStrNode] at hflag
        | bigint => simp [detectIdRefRest, Zod.isStrNode] at hflag
        | boolean => simp [detectIdRefRest, Zod.isStrNode] at hflag
        | date => simp [detectIdRefRest, Zod.isStrNode] at hflag
        | symbol => simp [detectIdRefRest, Zod.isStrNode] at hflag
        | null => simp [detectIdRefRest, Zod.isStrNode] at hflag
        | undef => simp [detectIdRefRest, Zod.isStrNode] at hflag
        | array a => simp [detectIdRefRest, Zod.isStrNode] at hflag
        | object a b => simp [detectIdRefRest, Zod.isStrNode] at hflag
        | enum a => simp [detectIdRefRest, Zod.isStrNode] at hflag
        | literal a => simp [detectIdRefRest, Zod.isStrNode] at hflag
        | record a b => simp [detectIdRefRest, Zod.isStrNode] at hflag
        | map a b => simp [detectIdRefRest, Zod.isStrNode] at hflag
        | set a => simp [detectIdRefRest, Zod.isStrNode] at hflag
        | promise a => simp [detectIdRefRest, Zod.isStrNode] at hflag
        | tuple a b => simp [detectIdRefRest, Zod.isStrNode] at hflag
        | optional a => simp [detectIdRefRest, Zod.isStrNode] at hflag
        | defaulted a => simp [detectIdRefRest, Zod.isStrNode] at hflag
        | lazy a => simp [detectIdRefRest, Zod.isStrNode] at hflag
        | union a b c => simp [detectIdRefRest, Zod.isStrNode] at hflag
        | intersection a b => simp [detectIdRefRest, Zod.isStrNode] at hflag
        | pipe a => simp [detectIdRefRest, Zod.isStrNode] at hflag
    | array element =>
      cases element with
      | str sm =>
        by_cases h5 : Zod.isStrNode (.str sm) = true ∧ truthySome (regTarget (.str sm)) = true
        · have harr : detectIdRefRest io (.array (.str sm)) = (true, regTarget (.str sm)) := by
            cases io <;> (rw [detectIdRefRest, if_pos h5])
          rw [harr] at hflag ⊢
          refine ⟨Or.inr (getFieldType_array_str env fuel sm k en ft hft), ?_⟩
          simpa using h5.2
        · have harr : detectIdRefRest io (.array (.str sm)) = (false, none) := by
            cases io <;> (rw [detectIdRefRest, if_neg h5])
          rw [harr] at hflag
          simp at hflag
      | nullable a => cases io <;> simp [detectIdRefRest, Zod.isStrNode] at hflag
      | number a b => cases io <;> simp [detectIdRefRest, Zod.isStrNode] at hflag
      | bigint => cases io <;> simp [detectIdRefRest, Zod.isStrNode] at hflag
      | boolean => cases io <;> simp [detectIdRefRest, Zod.isStrNode] at hflag
      | date => cases io <;> simp [detectIdRefRest, Zod.isStrNode] at hflag
      | symbol => cases io <;> simp [detectIdRefRest, Zod.isStrNode] at hflag
      | null => cases io <;> simp [detectIdRefRest, Zod.isStrNode] at hflag
      | undef => cases io <;> simp [detectIdRefRest, Zod.isStrNode] at hflag
      | array a => cases io <;> simp [detectIdRefRest, Zod.isStrNode] at hflag
      | object a b => cases io <;> simp [detectIdRefRest, Zod.isStrNode] at hflag
      | enum a => cases io <;> simp [detectIdRefRest, Zod.isStrNode] at hflag
      | literal a => cases io <;> simp [detectIdRefRest, Zod.isStrNode] at hflag
      | record a b => cases io <;> simp [detectIdRefRest, Zod.isStrNode] at hflag
      | map a b => cases io <;> simp [detectIdRefRest, Zod.isStrNode] at hflag
      | set a => cases io <;> simp [detectIdRefRest, Zod.isStrNode] at hflag
      | promise a => cases io <;> simp [detectIdRefRest, Zod.isStrNode] at hflag
      | tuple a b => cases io <;> simp [detectIdRefRest, Zod.isStrNode] at hflag
      | optional a => cases io <;> simp [detectIdRefRest, Zod.isStrNode] at hflag
      | defaulted a => cases io <;> simp [detectIdRefRest, Zod.isStrNode] at hflag
      | lazy a => cases io <;> simp [detectIdRefRest, Zod.isStrNode] at hflag
      | union a b c => cases io <;> simp [detectIdRefRest, Zod.isStrNode] at hflag
      | intersection a b => cases io <;> simp [detectIdRefRest, Zod.isStrNode] at hflag
      | pipe a => cases io <;> simp [detectIdRefRest, Zod.isStrNode] at hflag
    | str sm => cases io <;> simp [detectIdRefRest] at hflag
    | number a b => cases io <;> simp [detectIdRefRest] at hflag
    | bigint => cases io <;> simp [detectIdRefRest] at hflag
    | boolean => cases io <;> simp [detectIdRefRest] at hflag
    | date => cases io <;> simp [detectIdRefRest] at hflag
    | symbol => cases io <;> simp [detectIdRefRest] at hflag
    | null => cases io <;> simp [detectIdRefRest] at hflag
    | undef => cases io <;> simp [detectIdRefRest] at hflag
    | object a b => cases io <;> simp [detectIdRefRest] at hflag
    | enum a => cases io <;> simp [detectIdRefRest] at hflag
    | literal a => cases io <;> simp [detectIdRefRest] at hflag
    | record a b => cases io <;> simp [detectIdRefRest] at hflag
    | map a b => cases io <;> simp [detectIdRefRest] at hflag
    | set a => cases io <;> simp [detectIdRefRest] at hflag
    | promise a => cases io <;> simp [detectIdRefRest] at hflag
    | tuple a b => cases io <;> simp [detectIdRefRest] at hflag
    | nullable a => cases io <;> simp [detectIdRefRest] at hflag
    | defaulted a => cases io <;> simp [detectIdRefRest] at hflag
    | lazy a => cases io <;> simp [detectIdRefRest] at hflag
    | union a b c => cases io <;> simp [detectIdRefRest] at hflag
    | intersection a b => cases io <;> simp [detectIdRefRest] at hflag
    | pipe a => cases io <;> simp [detectIdRefRest] at hflag

/-- A flagged field built by `mkField` has type `"string"` or `"string[]"`
and a truthy referenced-entity name. -/
theorem mkField_flagged (env : List Zod) (fuel : Nat) (en k : String) (v : Zod)
    (fld : SchemaField) (h : mkField env fuel en k v = .ok fld)
    (hflag : fld.isIdReference = true) :
    (fld.type = "string" ∨ fld.type = "string[]") ∧ truthySome fld.referencedEntity = true := by
  unfold mkField at h
  cases hft : getFieldType env fuel v k en with
  | error e => rw [hft] at h; simp at h
  | ok ft =>
    rw [hft] at h
    cases hio : isFieldOptional env fuel v with
    | error e => rw [hio] at h; simp at h
    | ok io =>
      rw [hio] at h
      cases hval : getFieldValidation env fuel v with
      | error e => rw [hval] at h; simp at h
      | ok val =>
        rw [hval] at h
        simp at h
        subst h
        exact detectIdRef_spec env fuel ft io v k en hft hflag

/-- A field built by `mkOptionField` (union option fields) is never flagged. -/
theorem mkOptionField_not_flagged (env : List Zod) (fuel : Nat) (en k : String) (v : Zod)
    (fld : SchemaField) (h : mkOptionField env fuel en k v = .ok fld) :
    fld.isIdReference = false := by
  unfold mkOptionField at h
  cases hft : getFieldType env fuel v k en with
  | error e => rw [hft] at h; simp at h
  | ok ft =>
    rw [hft] at h
    cases hio : isFieldOptional env fuel v with
    | error e => rw [hio] at h; simp at h
    | ok io =>
      rw [hio] at h
      cases hval : getFieldValidation env fuel v with
      | error e => rw [hval] at h; simp at h
      | ok val =>
        rw [hval] at h
        simp at h
        subst h
        rfl

/-- Inversion of a successful `Except` bind. -/
theorem exceptBind_ok_inv {ε α β : Type} {x : Except ε α} {f : α → Except ε β} {b : β}
    (h : (x >>= f) = .ok b) : ∃ a, x = .ok a ∧ f a = .ok b := by
  cases x with
  | error e => simp at h
  | ok a => exact ⟨a, rfl, by simpa using h⟩

/-- The placeholder loop on an empty reference set is the identity. -/
@[simp] theorem placeholderFold_nil (es : List SchemaEntity) :
    placeholderFold [] es = es := rfl

/-- Every member of the placeholder loop's result is either an original
entity or a freshly appended empty placeholder. -/
theorem mem_placeholderFold (refs : List String) (es : List SchemaEntity) (e : SchemaEntity)
    (h : e ∈ placeholderFold refs es) : e ∈ es ∨ e.fields = [] := by
  induction refs generalizing es with
  | nil => exact Or.inl h
  | cons r rs ih =>
    rw [placeholderFold_cons] at h
    rcases ih _ h with hm | hf
    · by_cases hfound : (es.find? (fun x => x.name == r)).isSome
      · rw [if_pos hfound] at hm
        exact Or.inl hm
      · rw [if_neg hfound] at hm
        rcases List.mem_append.mp hm with h1 | h2
        · exact Or.inl h1
        · rw [List.mem_singleton] at h2
          subst h2
          exact Or.inr rfl
    · exact Or.inr hf

/-- The flagged-field invariant of the graph builder: every field that any
produced entity flags as an id reference has rendered type `"string"` or
`"string[]"` and a truthy referenced-entity name.  Proved by induction on the
fuel over all branches of `parseCore`. -/
theorem parse_FieldInv (env : List Zod) (fuel : Nat) :
    ∀ (en : String) (s : Zod) (pfn : Option String) (es : List SchemaEntity),
      parseCore env fuel en s pfn = .ok es →
      ∀ e ∈ es, ∀ f ∈ e.fields, f.isIdReference = true →
        (f.type = "string" ∨ f.type = "string[]") ∧ truthySome f.referencedEntity = true := by
  induction fuel with
  | zero => intro en s pfn es h; simp [parseCore] at h
  | succ fl ih =>
    intro en s pfn es h
    cases s with
    | lazy t =>
      rw [parseCore] at h
      cases hres : resolveLazy env t with
      | none =>
        rw [hres] at h
        simp at h
        subst h
        intro e he
        simp at he
      | some r =>
        simp only [hres] at h
        cases hp : parseCore env fl en r pfn with
        | error e0 =>
          rw [hp] at h
          simp at h
          subst h
          intro e he
          simp at he
        | ok es0 =>
          rw [hp] at h
          simp at h
          subst h
          exact ih en r pfn es0 hp
    | object meta shape =>
      simp only [parseCore] at h
      obtain ⟨fields, hfe, h2⟩ := exceptBind_ok_inv h
      obtain ⟨nested, hne, h3⟩ := exceptBind_ok_inv h2
      obtain rfl := Except.ok.inj h3
      intro e he f hf hflag
      rcases mem_placeholderFold _ _ _ he with hm | hempty
      · rcases List.mem_cons.mp hm with hent | hnest
        · subst hent
          obtain ⟨kv, hkv, hmk⟩ := mapM_ok_mem _ _ _ hfe f hf
          exact mkField_flagged env fl _ kv.1 kv.2 f hmk hflag
        · obtain ⟨l, hl, hel⟩ := List.mem_flatten.mp hnest
          obtain ⟨kv, hkv, hgl⟩ := mapM_ok_mem _ _ _ hne l hl
          cases hw : unwrapONDef kv.2 with
          | object m2 sh2 =>
            rw [hw] at hgl
            simp only [Zod.isObjectNode, if_pos] at hgl
            exact ih en _ (some kv.1) l hgl e hel f hf hflag
          | union m2 d2 o2 =>
            rw [hw] at hgl
            cases d2 with
            | some disc2 =>
              simp only [Zod.isObjectNode, Zod.isUnionDiscNode, Bool.false_eq_true,
                if_false, if_pos] at hgl
              exact ih en _ (some kv.1) l hgl e hel f hf hflag
            | none =>
              simp only [Zod.isObjectNode, Zod.isUnionDiscNode, Bool.false_eq_true,
                if_false] at hgl
              rw [Except.ok.injEq] at hgl
              subst hgl
              simp at hel
          | lazy t2 =>
            rw [hw] at hgl
            simp only [Zod.isObjectNode, Zod.isUnionDiscNode, Bool.false_eq_true,
              if_false] at hgl
            cases hres2 : resolveLazy env t2 with
            | none =>
              simp only [hres2] at hgl
              rw [Except.ok.injEq] at hgl
              subst hgl
              simp at hel
            | some r2 =>
              simp only [hres2] at hgl
              split at hgl
              · cases hp2 : parseCore env fl en r2 (some kv.1) with
                | error e0 =>
                  simp only [hp2] at hgl
                  rw [Except.ok.injEq] at hgl
                  subst hgl
                  simp at hel
                | ok es2 =>
                  simp only [hp2] at hgl
                  rw [Except.ok.injEq] at hgl
                  subst hgl
                  exact ih en r2 (some kv.1) es2 hp2 e hel f hf hflag
              · rw [Except.ok.injEq] at hgl
                subst hgl
                simp at hel
          | str sm => rw [hw] at hgl; simp [Zod.isObjectNode, Zod.isUnionDiscNode] at hgl; subst hgl; simp at hel
          | number a b => rw [hw] at hgl; simp [Zod.isObjectNode, Zod.isUnionDiscNode] at hgl; subst hgl; simp at hel
          | bigint => rw [hw] at hgl; simp [Zod.isObjectNode, Zod.isUnionDiscNode] at hgl; subst hgl; simp at hel
          | boolean => rw [hw] at hgl; simp [Zod.isObjectNode, Zod.isUnionDiscNode] at hgl; subst hgl; simp at hel
          | date => rw [hw] at hgl; simp [Zod.isObjectNode, Zod.isUnionDiscNode] at hgl; subst hgl; simp at hel
          | symbol => rw [hw] at hgl; simp [Zod.isObjectNode, Zod.isUnionDiscNode] at hgl; subst hgl; simp at hel
          | null => rw [hw] at hgl; simp [Zod.isObjectNode, Zod.isUnionDiscNode] at hgl; subst hgl; simp at hel
          | undef => rw [hw] at hgl; simp [Zod.isObjectNode, Zod.isUnionDiscNode] at hgl; subst hgl; simp at hel
          | array a => rw [hw] at hgl; simp [Zod.isObjectNode, Zod.isUnionDiscNode] at hgl; subst hgl; simp at hel
          | enum a => rw [hw] at hgl; simp [Zod.isObjectNode, Zod.isUnionDiscNode] at hgl; subst hgl; simp at hel
          | literal a => rw [hw] at hgl; simp [Zod.isObjectNode, Zod.isUnionDiscNode] at hgl; subst hgl; simp at hel
          | record a b => rw [hw] at hgl; simp [Zod.isObjectNode, Zod.isUnionDiscNode] at hgl; subst hgl; simp at hel
          | map a b => rw [hw] at hgl; simp [Zod.isObjectNode, Zod.isUnionDiscNode] at hgl; subst hgl; simp at hel
          | set a => rw [hw] at hgl; simp [Zod.isObjectNode, Zod.isUnionDiscNode] at hgl; subst hgl; simp at hel
          | promise a => rw [hw] at hgl; simp [Zod.isObjectNode, Zod.isUnionDiscNode] at hgl; subst hgl; simp at hel
          | tuple a b => rw [hw] at hgl; simp [Zod.isObjectNode, Zod.isUnionDiscNode] at hgl; subst hgl; simp at hel
          | optional a => rw [hw] at hgl; simp [Zod.isObjectNode, Zod.isUnionDiscNode] at hgl; subst hgl; simp at hel
          | nullable a => rw [hw] at hgl; simp [Zod.isObjectNode, Zod.isUnionDiscNode] at hgl; subst hgl; simp at hel
          | defaulted a => rw [hw] at hgl; simp [Zod.isObjectNode, Zod.isUnionDiscNode] at hgl; subst hgl; simp at hel
          | intersection a b => rw [hw] at hgl; simp [Zod.isObjectNode, Zod.isUnionDiscNode] at hgl; subst hgl; simp at hel
          | pipe a => rw [hw] at hgl; simp [Zod.isObjectNode, Zod.isUnionDiscNode] at hgl; subst hgl; simp at hel
      · rw [hempty] at hf
        simp at hf
    | union meta disc opts =>
      cases disc with
      | none =>
        simp [parseCore] at h
        subst h
        intro e he
        simp at he
      | some d =>
        simp only [parseCore] at h
        obtain ⟨dv, hdv, h2⟩ := exceptBind_ok_inv h
        obtain ⟨steps, hst, h3⟩ := exceptBind_ok_inv h2
        obtain rfl := Except.ok.inj h3
        intro e he f hf hflag
        rcases mem_placeholderFold _ _ _ he with hm | hempty
        · rcases List.mem_cons.mp hm with hbase | hsub
          · subst hbase
            simp only [List.mem_singleton] at hf
            subst hf
            simp at hflag
          · obtain ⟨stl, hstl, hestl⟩ := List.mem_flatten.mp hsub
            obtain ⟨st, hstm, hsteq⟩ := List.mem_map.mp hstl
            subst hsteq
            obtain ⟨ostep, hostep, hosteq⟩ := List.mem_filterMap.mp hstm
            simp only [id_eq] at hosteq
            subst hosteq
            obtain ⟨opt, hopt, hstepf⟩ := mapM_ok_mem _ _ _ hst (some st) hostep
            cases opt with
            | object ometa oshape =>
              obtain ⟨optionFields, hof, hs2⟩ := exceptBind_ok_inv hstepf
              obtain ⟨onested, hon, hs3⟩ := exceptBind_ok_inv hs2
              obtain rfl := Option.some.inj (Except.ok.inj hs3)
              rcases List.mem_cons.mp hestl with hoe | hone
              · subst hoe
                obtain ⟨kv, hkv, hmk⟩ := mapM_ok_mem _ _ _ hof f hf
                rw [mkOptionField_not_flagged env fl _ kv.1 kv.2 f hmk] at hflag
                simp at hflag
              · obtain ⟨l, hl, hel⟩ := List.mem_flatten.mp hone
                obtain ⟨kv, hkv, hgl⟩ := mapM_ok_mem _ _ _ hon l hl
                by_cases hko : kv.2.isObjectNode = true
                · rw [if_pos hko] at hgl
                  exact ih en kv.2 (some kv.1) l hgl e hel f hf hflag
                · rw [if_neg hko] at hgl
                  cases hkv2 : kv.2 with
                  | lazy t2 =>
                    simp only [hkv2] at hgl
                    cases hres2 : resolveLazy env t2 with
                    | none =>
                      simp only [hres2] at hgl
                      rw [Except.ok.injEq] at hgl
                      subst hgl
                      simp at hel
                    | some r2 =>
                      simp only [hres2] at hgl
                      split at hgl
                      · cases hp2 : parseCore env fl en r2 (some kv.1) with
                        | error e0 =>
                          simp only [hp2] at hgl
                          rw [Except.ok.injEq] at hgl
                          subst hgl
                          simp at hel
                        | ok es2 =>
                          simp only [hp2] at hgl
                          rw [Except.ok.injEq] at hgl
                          subst hgl
                          exact ih en r2 (some kv.1) es2 hp2 e hel f hf hflag
                      · rw [Except.ok.injEq] at hgl
                        subst hgl
                        simp at hel
                  | str sm => rw [hkv2] at hgl; simp [Zod.isObjectNode, Zod.isUnionDiscNode] at hgl; subst hgl; simp at hel
                  | number a b => rw [hkv2] at hgl; simp [Zod.isObjectNode, Zod.isUnionDiscNode] at hgl; subst hgl; simp at hel
                  | bigint => rw [hkv2] at hgl; simp [Zod.isObjectNode, Zod.isUnionDiscNode] at hgl; subst hgl; simp at hel
                  | boolean => rw [hkv2] at hgl; simp [Zod.isObjectNode, Zod.isUnionDiscNode] at hgl; subst hgl; simp at hel
                  | date => rw [hkv2] at hgl; simp [Zod.isObjectNode, Zod.isUnionDiscNode] at hgl; subst hgl; simp at hel
                  | symbol => rw [hkv2] at hgl; simp [Zod.isObjectNode, Zod.isUnionDiscNode] at hgl; subst hgl; simp at hel
                  | null => rw [hkv2] at hgl; simp [Zod.isObjectNode, Zod.isUnionDiscNode] at hgl; subst hgl; simp at hel
                  | undef => rw [hkv2] at hgl; simp [Zod.isObjectNode, Zod.isUnionDiscNode] at hgl; subst hgl; simp at hel
                  | array a => rw [hkv2] at hgl; simp [Zod.isObjectNode, Zod.isUnionDiscNode] at hgl; subst hgl; simp at hel
                  | object a b => rw [hkv2] at hko; simp [Zod.isObjectNode] at hko
                  | enum a => rw [hkv2] at hgl; simp [Zod.isObjectNode, Zod.isUnionDiscNode] at hgl; subst hgl; simp at hel
                  | literal a => rw [hkv2] at hgl; simp [Zod.isObjectNode, Zod.isUnionDiscNode] at hgl; subst hgl; simp at hel
                  | record a b => rw [hkv2] at hgl; simp [Zod.isObjectNode, Zod.isUnionDiscNode] at hgl; subst hgl; simp at hel
                  | map a b => rw [hkv2] at hgl; simp [Zod.isObjectNode, Zod.isUnionDiscNode] at hgl; subst hgl; simp at hel
                  | set a => rw [hkv2] at hgl; simp [Zod.isObjectNode, Zod.isUnionDiscNode] at hgl; subst hgl; simp at hel
                  | promise a => rw [hkv2] at hgl; simp [Zod.isObjectNode, Zod.isUnionDiscNode] at hgl; subst hgl; simp at hel
                  | tuple a b => rw [hkv2] at hgl; simp [Zod.isObjectNode, Zod.isUnionDiscNode] at hgl; subst hgl; simp at hel
                  | optional a => rw [hkv2] at hgl; simp [Zod.isObjectNode, Zod.isUnionDiscNode] at hgl; subst hgl; simp at hel
                  | nullable a => rw [hkv2] at hgl; simp [Zod.isObjectNode, Zod.isUnionDiscNode] at hgl; subst hgl; simp at hel
                  | defaulted a => rw [hkv2] at hgl; simp [Zod.isObjectNode, Zod.isUnionDiscNode] at hgl; subst hgl; simp at hel
                  | union a b c => rw [hkv2] at hgl; simp [Zod.isObjectNode, Zod.isUnionDiscNode] at hgl; subst hgl; simp at hel
                  | intersection a b => rw [hkv2] at hgl; simp [Zod.isObjectNode, Zod.isUnionDiscNode] at hgl; subst hgl; simp at hel
                  | pipe a => rw [hkv2] at hgl; simp [Zod.isObjectNode, Zod.isUnionDiscNode] at hgl; subst hgl; simp at hel
            | str sm => simp at hstepf
            | number a b => simp at hstepf
            | bigint => simp at hstepf
            | boolean => simp at hstepf
            | date => simp at hstepf
            | symbol => simp at hstepf
            | null => simp at hstepf
            | undef => simp at hstepf
            | array a => simp at hstepf
            | enum a => simp at hstepf
            | literal a => simp at hstepf
            | record a b => simp at hstepf
            | map a b => simp at hstepf
            | set a => simp at hstepf
            | promise a => simp at hstepf
            | tuple a b => simp at hstepf
            | optional a => simp at hstepf
            | nullable a => simp at hstepf
            | defaulted a => simp at hstepf
            | lazy a => simp at hstepf
            | union a b c => simp at hstepf
            | intersection a b => simp at hstepf
            | pipe a => simp at hstepf
        · rw [hempty] at hf
          simp at hf
    | str sm => simp [parseCore] at h; subst h; intro e he; simp at he
    | number a b => simp [parseCore] at h; subst h; intro e he; simp at he
    | bigint => simp [parseCore] at h; subst h; intro e he; simp at he
    | boolean => simp [parseCore] at h; subst h; intro e he; simp at he
    | date => simp [parseCore] at h; subst h; intro e he; simp at he
    | symbol => simp [parseCore] at h; subst h; intro e he; simp at he
    | null => simp [parseCore] at h; subst h; intro e he; simp at he
    | undef => simp [parseCore] at h; subst h; intro e he; simp at he
    | array a => simp [parseCore] at h; subst h; intro e he; simp at he
    | enum a => simp [parseCore] at h; subst h; intro e he; simp at he
    | literal a => simp [parseCore] at h; subst h; intro e he; simp at he
    | record a b => simp [parseCore] at h; subst h; intro e he; simp at he
    | map a b => simp [parseCore] at h; subst h; intro e he; simp at he
    | set a => simp [parseCore] at h; subst h; intro e he; simp at he
    | promise a => simp [parseCore] at h; subst h; intro e he; simp at he
    | tuple a b => simp [parseCore] at h; subst h; intro e he; simp at he
    | optional a => simp [parseCore] at h; subst h; intro e he; simp at he
    | nullable a => simp [parseCore] at h; subst h; intro e he; simp at he
    | defaulted a => simp [parseCore] at h; subst h; intro e he; simp at he
    | intersection a b => simp [parseCore] at h; subst h; intro e he; simp at he
    | pipe a => simp [parseCore] at h; subst h; intro e he; simp at he

/-- The shape of an ER relationship line; definitionally equal to the
interpolation used by the ER emitter, and used here to phrase theorem
statements. -/
def mermaidRelLine (en tok tgt fn : String) : String :=
  s!"    {en} {tok} {tgt} : \"{fn}\""

/-- Claim C1: for every field of a built entity graph that is flagged as a
keyed (id) reference, the ER emitter's relationship line for that field uses
the many-to-many token when the field's display type is an array (regardless
of its optionality flag), and otherwise the many-to-optional token for an
optional scalar and the many-to-mandatory-one token — never the optional
variant — for a required scalar.  (`relLinesForField` is exactly the body of
the ER emitter's per-field relationship loop, and `erDiagramLines` is its
concatenation over all entities and fields.) -/
theorem claim_C1_cardinality (env : List Zod) (fuel : Nat) (en : String) (s : Zod)
    (pfn : Option String) (es : List SchemaEntity) (e : SchemaEntity) (f : SchemaField)
    (hparse : parseCore env fuel en s pfn = .ok es) (he : e ∈ es) (hf : f ∈ e.fields)
    (hflag : f.isIdReference = true) :
    (strEndsWith f.type "[]" = true →
      ∃ tgt, (relLinesForField es e f).head?
        = some (mermaidRelLine e.name "\x7do--o\x7b" tgt f.name))
    ∧ (strEndsWith f.type "[]" = false → f.isOptional = true →
      ∃ tgt, relLinesForField es e f
        = [mermaidRelLine e.name "\x7do--o\x7b" tgt f.name])
    ∧ (strEndsWith f.type "[]" = false → f.isOptional = false →
      ∃ tgt, relLinesForField es e f
        = [mermaidRelLine e.name "\x7do--||" tgt f.name]) := by
  obtain ⟨htype, htruthy⟩ := parse_FieldInv env fuel en s pfn es hparse e he f hf hflag
  rcases htype with hstr | harr
  · have hends : strEndsWith f.type "[]" = false := by rw [hstr]; decide
    have hemb : ¬((es.find? (fun x => x.name == f.type)).isSome = true ∧ f.type ≠ "string"
        ∧ f.type ≠ "number" ∧ f.type ≠ "boolean" ∧ f.type ≠ "date"
        ∧ strEndsWith f.type "[]" = false) := by
      rw [hstr]
      intro hc
      exact hc.2.1 rfl
    refine ⟨?_, ?_, ?_⟩
    · intro h
      rw [hends] at h
      simp at h
    · intro _ hopt
      refine ⟨((es.find? (fun x => x.name == f.referencedEntity.getD "")).map
        (fun x => x.name)).getD (f.referencedEntity.getD ""), ?_⟩
      simp only [relLinesForField]
      rw [if_neg hemb, if_pos (And.intro hflag htruthy)]
      simp [mermaidRelLine, hends, hopt]
    · intro _ hopt
      refine ⟨((es.find? (fun x => x.name == f.referencedEntity.getD "")).map
        (fun x => x.name)).getD (f.referencedEntity.getD ""), ?_⟩
      simp only [relLinesForField]
      rw [if_neg hemb, if_pos (And.intro hflag htruthy)]
      simp [mermaidRelLine, hends, hopt]
  · have hends : strEndsWith f.type "[]" = true := by rw [harr]; decide
    have hemb : ¬((es.find? (fun x => x.name == f.type)).isSome = true ∧ f.type ≠ "string"
        ∧ f.type ≠ "number" ∧ f.type ≠ "boolean" ∧ f.type ≠ "date"
        ∧ strEndsWith f.type "[]" = false) := by
      intro hc
      rw [hends] at hc
      simp at hc
    refine ⟨?_, ?_, ?_⟩
    · intro _
      refine ⟨((es.find? (fun x => x.name == f.referencedEntity.getD "")).map
        (fun x => x.name)).getD (f.referencedEntity.getD ""), ?_⟩
      simp only [relLinesForField]
      rw [if_neg hemb, if_pos (And.intro hflag htruthy)]
      simp [mermaidRelLine, hends]
    · intro h
      rw [hends] at h
      simp at h
    · intro h
      rw [hends] at h
      simp at h

/-- The `Order` schema of the C1 witness: one keyed reference field. -/
def c1Order : Zod := .object { description := some "Order" }
  [("customerId", .str { ref := some "Customer" })]

/-- The field the C1 witness instantiates the theorem at. -/
def c1Field : SchemaField :=
  { name := "customerId", type := "string", isOptional := false,
    validation := ["ref: Customer"], description := none,
    isIdReference := true, referencedEntity := some "Customer" }

/-- The entity the C1 witness instantiates the theorem at. -/
def c1OrderEntity : SchemaEntity :=
  { name := "Order", fields := [c1Field], description := none, unionRelationships := none }

/-- The entity list built from the C1 witness schema. -/
def c1Entities : List SchemaEntity :=
  [c1OrderEntity,
   { name := "Customer", fields := [], description := none, unionRelationships := none }]

/-- Witness for C1 at a concrete graph: the hypotheses hold for the `Order`
schema, and the required-scalar case yields the mandatory-one token. -/
theorem claim_C1_cardinality_witness :
    (parseCore [] 5 "Entity" c1Order none = .ok c1Entities
      ∧ c1OrderEntity ∈ c1Entities ∧ c1Field ∈ c1OrderEntity.fields
      ∧ c1Field.isIdReference = true)
    ∧ ((strEndsWith c1Field.type "[]" = true →
        ∃ tgt, (relLinesForField c1Entities c1OrderEntity c1Field).head?
          = some (mermaidRelLine c1OrderEntity.name "\x7do--o\x7b" tgt c1Field.name))
      ∧ (strEndsWith c1Field.type "[]" = false → c1Field.isOptional = true →
        ∃ tgt, relLinesForField c1Entities c1OrderEntity c1Field
          = [mermaidRelLine c1OrderEntity.name "\x7do--o\x7b" tgt c1Field.name])
      ∧ (strEndsWith c1Field.type "[]" = false → c1Field.isOptional = false →
        ∃ tgt, relLinesForField c1Entities c1OrderEntity c1Field
          = [mermaidRelLine c1OrderEntity.name "\x7do--||" tgt c1Field.name])) :=
  ⟨⟨rfl, by decide, by decide, rfl⟩,
    claim_C1_cardinality [] 5 "Entity" c1Order none c1Entities c1OrderEntity c1Field
      rfl (by decide) (by decide) rfl⟩

/-- Flat (leaf) schema nodes: primitives, enums and literals.  Such fields
never throw during validation extraction, are never optional, and never make
the graph builder recurse. -/
def isFlat : Zod → Bool
  | .str _ => true
  | .number _ _ => true
  | .bigint => true
  | .boolean => true
  | .date => true
  | .symbol => true
  | .null => true
  | .undef => true
  | .enum _ => true
  | .literal _ => true
  | _ => false

/-- The display type of a flat node (agrees with `getFieldType`). -/
def flatFieldType : Zod → String
  | .str _ => "string"
  | .number _ _ => "number"
  | .bigint => "bigint"
  | .boolean => "boolean"
  | .date => "date"
  | .symbol => "symbol"
  | .null => "null"
  | .undef => "undefined"
  | .enum _ => "string"
  | .literal v => v.typeOf
  | _ => "unknown"

/-- The validations of a flat node (agrees with `getFieldValidation`). -/
def flatValidations : Zod → List String
  | .str sm => stringValidations sm
  | .number mn mx => numberValidations mn mx
  | .enum entries =>
    let e := String.intercalate ", " entries
    [s!"enum: {e}"]
  | .literal v =>
    let lv := v.asString
    [s!"literal: {lv}"]
  | _ => []

/-- The field record `mkField` produces for a flat node. -/
def flatMkField (en k : String) (v : Zod) : SchemaField :=
  { name := k, type := flatFieldType v, isOptional := false, validation := flatValidations v,
    description := none,
    isIdReference := (detectIdRef (flatFieldType v) false v).1,
    referencedEntity := (detectIdRef (flatFieldType v) false v).2 }

/-- On a flat node, `mkField` succeeds with the flat field record, for any
positive fuel. -/
theorem mkField_flat (env : List Zod) (g : Nat) (en k : String) (v : Zod)
    (hv : isFlat v = true) :
    mkField env (g+1) en k v = .ok (flatMkField en k v) := by
  cases v <;> simp [isFlat] at hv <;>
    simp [mkField, flatMkField, getFieldType, isFieldOptional, getFieldValidation,
      flatFieldType, flatValidations]

/-- On a flat node, `mkOptionField` succeeds with the flat field record
minus the reference flags. -/
theorem mkOptionField_flat (env : List Zod) (g : Nat) (en k : String) (v : Zod)
    (hv : isFlat v = true) :
    mkOptionField env (g+1) en k v
      = .ok { name := k, type := flatFieldType v, isOptional := false,
              validation := flatValidations v, description := none,
              isIdReference := false, referencedEntity := none } := by
  cases v <;> simp [isFlat] at hv <;>
    simp [mkOptionField, getFieldType, isFieldOptional, getFieldValidation,
      flatFieldType, flatValidations]

/-- A `mapM` over `Except` whose applications all succeed pointwise equals
the `ok` of the pointwise map. -/
theorem mapM_congr_ok {α β : Type} (g : α → Except Unit β) (c : α → β) :
    ∀ (l : List α), (∀ p ∈ l, g p = .ok (c p)) → l.mapM g = .ok (l.map c) := by
  intro l
  induction l with
  | nil => intro _; rw [List.mapM_nil]; rfl
  | cons a as ih =>
    intro h
    rw [List.mapM_cons, h a (List.mem_cons_self a as), ih (fun p hp => h p (List.mem_cons_of_mem a hp))]
    simp

/-- Flattening a constantly-empty list of lists gives the empty list. -/
theorem flatten_map_nil {α β : Type} (l : List α) :
    (l.map (fun _ => ([] : List β))).flatten = [] := by
  induction l with
  | nil => rfl
  | cons a as ih => simp [ih]

/-- A display type ending in `[]` is detected as an array by the emitters. -/
theorem strEndsWith_append_brackets (s : String) : strEndsWith (s ++ "[]") "[]" = true := by
  simp [strEndsWith, String.data_append]

/-- Dropping the `[]` suffix recovers the base display type. -/
theorem strDropRight_append_brackets (s : String) : strDropRight (s ++ "[]") 2 = s := by
  have h : (s ++ "[]").data = s.data ++ [Char.ofNat 91, Char.ofNat 93] := by
    simp [String.data_append]
  simp only [strDropRight, h, List.length_append]
  have h2 : s.data.length + 2 - 2 = s.data.length := by omega
  rw [show ([Char.ofNat 91, Char.ofNat 93] : List Char).length = 2 from rfl, h2,
    List.take_left]

/-- The placeholder loop only ever appends entities. -/
theorem placeholderFold_prefix (refs : List String) (es : List SchemaEntity) :
    ∃ tail, placeholderFold refs es = es ++ tail := by
  induction refs generalizing es with
  | nil => exact ⟨[], by simp⟩
  | cons r rs ih =>
    rw [placeholderFold_cons]
    by_cases hf : (es.find? (fun e => e.name == r)).isSome
    · rw [if_pos hf]; exact ih es
    · rw [if_neg hf]
      obtain ⟨tail, htail⟩ := ih
        (es ++ [{ name := r, fields := [], description := none, unionRelationships := none }])
      exact ⟨_, by rw [htail, List.append_assoc]⟩

/-- The placeholder loop never adds an entity whose name is already carried
by a member of the list, so the per-name entity count is preserved. -/
theorem placeholderFold_countP (refs : List String) (es : List SchemaEntity) (nm : String)
    (hmem : ∃ e ∈ es, e.name = nm) :
    (placeholderFold refs es).countP (fun e => e.name == nm)
      = es.countP (fun e => e.name == nm) := by
  induction refs generalizing es with
  | nil => rfl
  | cons r rs ih =>
    rw [placeholderFold_cons]
    by_cases hf : (es.find? (fun e => e.name == r)).isSome
    · rw [if_pos hf]; exact ih es hmem
    · rw [if_neg hf]
      have hrn : (r == nm) = false := by
        rw [beq_eq_false_iff_ne]
        intro h
        subst h
        obtain ⟨e, he, hen⟩ := hmem
        apply hf
        rw [List.find?_isSome]
        exact ⟨e, he, by simp [hen]⟩
      obtain ⟨e, he, hen⟩ := hmem
      rw [ih _ ⟨e, List.mem_append_left _ he, hen⟩]
      simp [List.countP_append, List.countP_cons, hrn]

/-- A schema whose object field at `k` is an array of a lazy self-reference
(environment entry 0 is the schema itself), surrounded by flat fields. -/
def selfArraySchema (m : Meta) (k : String) (pre post : List (String × Zod)) : Zod :=
  .object m (pre ++ (k, .array (.lazy (some 0))) :: post)

/-- The field record the builder produces for the array-of-self field. -/
def selfArrayField (n k : String) : SchemaField :=
  { name := k, type := n ++ "[]", isOptional := false, validation := [],
    description := none, isIdReference := false, referencedEntity := none }

/-- The full field list the builder produces for `selfArraySchema`. -/
def selfArrayFields (m : Meta) (k en : String) (pfn : Option String)
    (pre post : List (String × Zod)) : List SchemaField :=
  (pre ++ (k, Zod.array (.lazy (some 0))) :: post).map (fun kv =>
    if isFlat kv.2 = true then
      flatMkField (jsOrOpt (getEntityName m pfn) en) kv.1 kv.2
    else selfArrayField (jsOrOpt (getEntityName m pfn) en) kv.1)

/-- `mkField` on the array-of-self field: the lazy element resolves to the
object at environment index 0, so the renderer short-circuits to the
enclosing entity name and no exception occurs. -/
theorem mkField_selfArray (env : List Zod) (g : Nat) (m0 : Meta)
    (sh0 : List (String × Zod)) (henv0 : env[0]? = some (.object m0 sh0))
    (n k : String) (hn : n ≠ "") :
    mkField env (g+3) n k (.array (.lazy (some 0))) = .ok (selfArrayField n k) := by
  simp [mkField, getFieldType, isFieldOptional, getFieldValidation, resolveLazy, henv0,
    Zod.isObjectNode, jsOr, hn, detectIdRef, detectIdRefRest, regTarget, truthySome,
    Zod.isStrNode, selfArrayField]

/-- The single entity the builder produces for `selfArraySchema`. -/
def selfArrayEntity (m : Meta) (k en : String) (pfn : Option String)
    (pre post : List (String × Zod)) : SchemaEntity :=
  { name := jsOrOpt (getEntityName m pfn) en,
    fields := selfArrayFields m k en pfn pre post,
    description := none, unionRelationships := none }

/-- Claim C2: for every schema whose object field is an array of a deferred
self-reference (with any other flat fields around it, any entity naming and
any options), graph building terminates — the result is the same for every
fuel beyond a fixed bound, so the recursion depth is bounded — and produces
exactly one entity for that object type, and the ER output contains a
self-loop relationship edge on that entity labeled with the field name. -/
theorem claim_C2_self_reference (m : Meta) (k en : String) (pfn : Option String)
    (iv : Bool) (pre post : List (String × Zod))
    (hpre : ∀ p ∈ pre, isFlat p.2 = true) (hpost : ∀ p ∈ post, isFlat p.2 = true)
    (hN : jsOrOpt (getEntityName m pfn) en ≠ "") :
    ∃ es,
      (∀ fuel, parseCore [selfArraySchema m k pre post] (fuel+4) en
          (selfArraySchema m k pre post) pfn = .ok es)
      ∧ es.countP (fun e => e.name == jsOrOpt (getEntityName m pfn) en) = 1
      ∧ mermaidRelLine (jsOrOpt (getEntityName m pfn) en) "||--||"
          (jsOrOpt (getEntityName m pfn) en) k ∈ erDiagramLines es iv := by
  refine ⟨placeholderFold (collectRefs (selfArrayFields m k en pfn pre post))
    [selfArrayEntity m k en pfn pre post], ?_, ?_, ?_⟩
  · intro fuel
    rw [show selfArraySchema m k pre post
      = Zod.object m (pre ++ (k, .array (.lazy (some 0))) :: post) from rfl]
    have henv0 : ([Zod.object m (pre ++ (k, .array (.lazy (some 0))) :: post)]
          : List Zod)[0]?
        = some (.object m (pre ++ (k, .array (.lazy (some 0))) :: post)) := rfl
    have hfields : List.mapM
        (fun kv : String × Zod =>
          mkField [Zod.object m (pre ++ (k, .array (.lazy (some 0))) :: post)]
            (fuel+3) (jsOrOpt (getEntityName m pfn) en) kv.1 kv.2)
        (pre ++ (k, Zod.array (Zod.lazy (some 0))) :: post)
        = .ok (selfArrayFields m k en pfn pre post) := by
      rw [selfArrayFields]
      apply mapM_congr_ok
      intro p hp
      rcases List.mem_append.mp hp with hp1 | hp2
      · have hfl := hpre p hp1
        simp only [hfl, if_true]
        exact mkField_flat _ (fuel+2) _ p.1 p.2 hfl
      · rcases List.mem_cons.mp hp2 with hpm | hp3
        · subst hpm
          simp only [isFlat, Bool.false_eq_true, if_false]
          exact mkField_selfArray _ fuel m _ henv0 _ k hN
        · have hfl := hpost p hp3
          simp only [hfl, if_true]
          exact mkField_flat _ (fuel+2) _ p.1 p.2 hfl
    simp only [parseCore]
    rw [hfields]
    simp only [exceptBind_ok]
    rw [mapM_congr_ok _ (fun _ => ([] : List SchemaEntity))]
    · simp only [exceptBind_ok, flatten_map_nil]
      rfl
    · intro p hp
      have hcases : isFlat p.2 = true ∨ p.2 = .array (.lazy (some 0)) := by
        rcases List.mem_append.mp hp with h1 | h2
        · exact Or.inl (hpre p h1)
        · rcases List.mem_cons.mp h2 with hm | h3
          · exact Or.inr (by rw [hm])
          · exact Or.inl (hpost p h3)
      rcases hcases with hfl | hmid2
      · rcases p with ⟨pk, pv⟩
        cases pv <;> simp [isFlat] at hfl <;>
          simp [unwrapONDef, Zod.isObjectNode, Zod.isUnionDiscNode]
      · simp [hmid2, unwrapONDef, Zod.isObjectNode, Zod.isUnionDiscNode]
  · have h2 := placeholderFold_countP
      (collectRefs (selfArrayFields m k en pfn pre post))
      [selfArrayEntity m k en pfn pre post] (jsOrOpt (getEntityName m pfn) en)
      ⟨selfArrayEntity m k en pfn pre post, List.mem_singleton_self _, rfl⟩
    rw [h2]
    simp [List.countP_cons, selfArrayEntity]
  · have hmemMain : selfArrayEntity m k en pfn pre post
        ∈ placeholderFold (collectRefs (selfArrayFields m k en pfn pre post))
          [selfArrayEntity m k en pfn pre post] := by
      obtain ⟨tail, htail⟩ := placeholderFold_prefix _ _
      rw [htail]
      exact List.mem_append_left _ (List.mem_singleton_self _)
    have hmemField : selfArrayField (jsOrOpt (getEntityName m pfn) en) k
        ∈ (selfArrayEntity m k en pfn pre post).fields := by
      rw [selfArrayEntity, selfArrayFields]
      refine List.mem_map.mpr ⟨(k, .array (.lazy (some 0))), ?_, ?_⟩
      · exact List.mem_append_right _ (List.mem_cons_self _ _)
      · simp [isFlat]
    have hfind : (placeholderFold (collectRefs (selfArrayFields m k en pfn pre post))
          [selfArrayEntity m k en pfn pre post]).find?
            (fun e => e.name == jsOrOpt (getEntityName m pfn) en)
        = some (selfArrayEntity m k en pfn pre post) := by
      obtain ⟨tail, htail⟩ := placeholderFold_prefix _ _
      rw [htail]
      simp [List.find?, selfArrayEntity]
    have hrelEq : relLinesForField
        (placeholderFold (collectRefs (selfArrayFields m k en pfn pre post))
          [selfArrayEntity m k en pfn pre post])
        (selfArrayEntity m k en pfn pre post)
        (selfArrayField (jsOrOpt (getEntityName m pfn) en) k)
        = [mermaidRelLine (jsOrOpt (getEntityName m pfn) en) "||--||"
            (jsOrOpt (getEntityName m pfn) en) k] := by
      have hends := strEndsWith_append_brackets (jsOrOpt (getEntityName m pfn) en)
      simp only [relLinesForField, selfArrayField, mermaidRelLine, selfArrayEntity]
      rw [if_neg (by
        intro hc
        rw [hends] at hc
        simp at hc)]
      rw [if_neg (by
        intro hc
        simp at hc)]
      rw [hends]
      simp only [if_true, List.nil_append]
      rw [strDropRight_append_brackets]
      have hfind2 := hfind
      simp only [selfArrayEntity] at hfind2
      rw [hfind2]
      simp
    rw [erDiagramLines]
    apply List.mem_cons_of_mem
    apply List.mem_append_left
    apply List.mem_append_right
    refine List.mem_flatten.mpr ⟨_, List.mem_map.mpr ⟨_, hmemMain, rfl⟩, ?_⟩
    refine List.mem_flatten.mpr ⟨_, List.mem_map.mpr
      ⟨selfArrayField (jsOrOpt (getEntityName m pfn) en) k, hmemField, rfl⟩, ?_⟩
    rw [hrelEq]
    exact List.mem_singleton_self _

theorem claim_C2_self_reference_witness :
    ∃ es,
      (∀ fuel, parseCore
          [selfArraySchema { entityName := none, title := none, description := none } "friends" [] []]
          (fuel+4) "Entity"
          (selfArraySchema { entityName := none, title := none, description := none } "friends" [] []) none
          = .ok es)
      ∧ es.countP (fun e => e.name
          == jsOrOpt (getEntityName { entityName := none, title := none, description := none } none) "Entity") = 1
      ∧ mermaidRelLine
          (jsOrOpt (getEntityName { entityName := none, title := none, description := none } none) "Entity") "||--||"
          (jsOrOpt (getEntityName { entityName := none, title := none, description := none } none) "Entity") "friends"
          ∈ erDiagramLines es true :=
  claim_C2_self_reference
    { entityName := none, title := none, description := none }
    "friends" "Entity" none true [] []
    (fun p hp => nomatch hp) (fun p hp => nomatch hp) (by decide)

/-- A `mapM` over a mapped list whose applications all succeed pointwise. -/
theorem mapM_map_congr_ok {α β γ : Type} (f : α → β) (g : β → Except Unit γ) (c : α → γ)
    (l : List α) (h : ∀ a ∈ l, g (f a) = .ok (c a)) :
    (l.map f).mapM g = .ok (l.map c) := by
  induction l with
  | nil => rw [List.map_nil, List.mapM_nil]; rfl
  | cons a as ih =>
    rw [List.map_cons, List.mapM_cons, h a (List.mem_cons_self a as),
      ih (fun p hp => h p (List.mem_cons_of_mem a hp))]
    simp

/-- Flattening a list of singletons gives the map of their contents. -/
theorem flatten_map_singleton {α β : Type} (l : List α) (e : α → β) :
    (l.map (fun a => [e a])).flatten = l.map e := by
  induction l with
  | nil => rfl
  | cons a as ih => simp [ih]

/-- `filterMap id` over a list of `some`s recovers the map. -/
theorem filterMap_id_map_some {α β : Type} (l : List α) (e : α → β) :
    (l.map (fun a => some (e a))).filterMap id = l.map e := by
  induction l with
  | nil => rfl
  | cons a as ih => simp [ih]

/-- One option of a discriminated union: option metadata, the literal
discriminator value (declared first in the shape), and the remaining fields. -/
def unionOptionSchema (disc : String) (s : Meta × JsLit × List (String × Zod)) : Zod :=
  .object s.1 ((disc, .literal s.2.1) :: s.2.2)

/-- A discriminated union schema over a list of such option descriptions. -/
def discUnionSchema (m : Meta) (disc : String)
    (specs : List (Meta × JsLit × List (String × Zod))) : Zod :=
  .union m (some disc) (specs.map (unionOptionSchema disc))

/-- The base entity name the builder computes for the union. -/
def unionBaseName (m : Meta) (pfn : Option String) (en : String) : String :=
  jsOrOpt (getEntityName m pfn) en

/-- The joined discriminator-value string of the base entity's enum line. -/
def unionJoined (specs : List (Meta × JsLit × List (String × Zod))) : String :=
  joinDiscValues (specs.map (fun s => some s.2.1))

/-- The single discriminator field of the base entity. -/
def unionDiscField (disc : String)
    (specs : List (Meta × JsLit × List (String × Zod))) : SchemaField :=
  { name := disc, type := "string", isOptional := false,
    validation := [s!"enum: {unionJoined specs}"], description := none,
    isIdReference := false, referencedEntity := none }

/-- The entity name the builder computes for one union option. -/
def optionEntityNameOf (uN : String) (s : Meta × JsLit × List (String × Zod)) : String :=
  jsOrOpt (getEntityName s.1 none) s!"{uN}_{s.2.1.asString}"

/-- The subtype entity the builder produces for one union option: all its
fields except the discriminator, no union bookkeeping of its own. -/
def unionOptionEntity (uN : String) (s : Meta × JsLit × List (String × Zod)) : SchemaEntity :=
  { name := optionEntityNameOf uN s,
    fields := s.2.2.map (fun kv =>
      { name := kv.1, type := flatFieldType kv.2, isOptional := false,
        validation := flatValidations kv.2, description := none,
        isIdReference := false, referencedEntity := none }),
    description := none, unionRelationships := none }

/-- The per-option step output for a flat union option. -/
def unionStepOf (uN : String) (s : Meta × JsLit × List (String × Zod)) : UnionStepOut :=
  { entity := unionOptionEntity uN s,
    subtype := { name := optionEntityNameOf uN s,
                 discriminatorValue := s.2.1.asString },
    nested := [] }

/-- The per-option step output, computed from the option node itself. -/
def unionStepFn (uN disc : String) : Zod → Option UnionStepOut
  | .object ometa oshape =>
    let rawValue := (shapeLookup oshape disc).bind defValuesHead
    let dv := match rawValue with | some v => v.asString | none => ""
    let oN := jsOrOpt (getEntityName ometa none) s!"{uN}_{dv}"
    some { entity := { name := oN,
                       fields := (oshape.filter (fun kv => kv.1 != disc)).map
                         (fun kv =>
                           { name := kv.1, type := flatFieldType kv.2,
                             isOptional := false, validation := flatValidations kv.2,
                             description := none, isIdReference := false,
                             referencedEntity := none }),
                       description := none, unionRelationships := none },
           subtype := { name := oN, discriminatorValue := dv },
           nested := [] }
  | _ => none

/-- The base entity of the union, with its full subtype bookkeeping. -/
def unionBaseEntity (m : Meta) (disc en : String) (pfn : Option String)
    (specs : List (Meta × JsLit × List (String × Zod))) : SchemaEntity :=
  { name := unionBaseName m pfn en,
    fields := [unionDiscField disc specs],
    description := none,
    unionRelationships := some
      { baseEntity := unionBaseName m pfn en,
        subtypes := specs.map (fun s =>
          { name := optionEntityNameOf (unionBaseName m pfn en) s,
            discriminatorValue := s.2.1.asString }) } }

/-- One union-relationship line of the ER emitter. -/
def mermaidUnionLine (b sn dv : String) : String :=
  s!"    {b} ||--|| {sn} : \"{dv}\""

/-- Claim C5: for every discriminated union with N object options (flat
option fields, discriminator keys distinct from the other keys), the graph
builder produces a base entity whose single field is the discriminator,
typed string, with one enum validation listing all N discriminator values in
declaration order, plus exactly N subtype entities each excluding the
discriminator field, and the ER output contains exactly N union-relationship
edges from the base to each subtype, each labeled with that option's
discriminator value. -/
theorem claim_C5_discriminated_union (env : List Zod) (m : Meta) (disc en : String)
    (pfn : Option String) (fuel : Nat)
    (specs : List (Meta × JsLit × List (String × Zod)))
    (hflat : ∀ s ∈ specs, ∀ kv ∈ s.2.2, isFlat kv.2 = true)
    (hkeys : ∀ s ∈ specs, ∀ kv ∈ s.2.2, kv.1 ≠ disc) :
    parseCore env (fuel+2) en (discUnionSchema m disc specs) pfn
      = .ok (unionBaseEntity m disc en pfn specs
          :: specs.map (unionOptionEntity (unionBaseName m pfn en)))
    ∧ (specs.map (unionOptionEntity (unionBaseName m pfn en))).length = specs.length
    ∧ (∀ e ∈ specs.map (unionOptionEntity (unionBaseName m pfn en)),
        ∀ f ∈ e.fields, f.name ≠ disc)
    ∧ erUnionLines (unionBaseEntity m disc en pfn specs
          :: specs.map (unionOptionEntity (unionBaseName m pfn en)))
      = specs.map (fun s => mermaidUnionLine (unionBaseName m pfn en)
          (optionEntityNameOf (unionBaseName m pfn en) s) s.2.1.asString) := by
  refine ⟨?_, ?_, ?_, ?_⟩
  · have hdisc : (specs.map (unionOptionSchema disc)).mapM (discValueOf disc)
        = .ok (specs.map (fun s => some s.2.1)) := by
      apply mapM_map_congr_ok
      intro s hs
      simp [unionOptionSchema, discValueOf, shapeLookup, List.find?, defValuesHead]
    have hstepEq : ∀ s ∈ specs,
        unionStepFn (unionBaseName m pfn en) disc (unionOptionSchema disc s)
          = some (unionStepOf (unionBaseName m pfn en) s) := by
      intro s hs
      have hfil : ((disc, Zod.literal s.2.1) :: s.2.2).filter (fun kv => kv.1 != disc)
          = s.2.2 := by
        rw [List.filter_cons]
        simp only [bne_self_eq_false, Bool.false_eq_true, if_false]
        exact List.filter_eq_self.mpr
          (fun kv hkv => bne_iff_ne.mpr (hkeys s hs kv hkv))
      simp [unionStepFn, unionOptionSchema, unionStepOf, unionOptionEntity,
        optionEntityNameOf, shapeLookup, List.find?, defValuesHead, hfil]
    simp only [discUnionSchema, parseCore]
    rw [hdisc]
    simp only [exceptBind_ok]
    rw [mapM_congr_ok _ (unionStepFn (unionBaseName m pfn en) disc)]
    · have hmaps : (specs.map (unionOptionSchema disc)).map
            (unionStepFn (unionBaseName m pfn en) disc)
          = specs.map (fun s => some (unionStepOf (unionBaseName m pfn en) s)) := by
        rw [List.map_map]
        exact List.map_congr_left (fun s hs => hstepEq s hs)
      simp only [exceptBind_ok, hmaps, filterMap_id_map_some]
      simp [unionBaseEntity, unionDiscField, unionJoined, unionBaseName, unionStepOf,
        unionOptionEntity, optionEntityNameOf, List.map_map, Function.comp,
        flatten_map_singleton, placeholderFold]
      rw [show List.map ((fun st : UnionStepOut => st.entity :: st.nested)
            ∘ unionStepOf (jsOrOpt (getEntityName m pfn) en)) specs
          = List.map (fun s => [unionOptionEntity (jsOrOpt (getEntityName m pfn) en) s]) specs
        from List.map_congr_left (fun s _ => rfl), flatten_map_singleton]
    · intro p hp
      obtain ⟨s, hs, rfl⟩ := List.mem_map.mp hp
      have hfil : ((disc, Zod.literal s.2.1) :: s.2.2).filter (fun kv => kv.1 != disc)
          = s.2.2 := by
        rw [List.filter_cons]
        simp only [bne_self_eq_false, Bool.false_eq_true, if_false]
        exact List.filter_eq_self.mpr
          (fun kv hkv => bne_iff_ne.mpr (hkeys s hs kv hkv))
      simp only [unionOptionSchema]
      rw [show (Zod.object s.1 ((disc, Zod.literal s.2.1) :: s.2.2))
        = unionOptionSchema disc s from rfl]
      simp only [unionOptionSchema, hfil]
      rw [mapM_congr_ok _ (fun kv : String × Zod =>
        ({ name := kv.1, type := flatFieldType kv.2, isOptional := false,
           validation := flatValidations kv.2, description := none,
           isIdReference := false, referencedEntity := none } : SchemaField))]
      · rw [mapM_congr_ok _ (fun _ => ([] : List SchemaEntity))]
        · simp [unionStepFn, unionStepOf, unionOptionEntity, optionEntityNameOf,
            unionBaseName, shapeLookup, List.find?, defValuesHead, hfil, flatten_map_nil]
        · intro kv hkv
          have hfl := hflat s hs kv hkv
          rcases kv with ⟨kk, kvv⟩
          cases kvv <;> simp [isFlat] at hfl <;> simp [Zod.isObjectNode]
      · intro kv hkv
        exact mkOptionField_flat env fuel _ kv.1 kv.2 (hflat s hs kv hkv)
  · exact List.length_map _ _
  · intro e he f hf
    obtain ⟨s, hs, rfl⟩ := List.mem_map.mp he
    simp only [unionOptionEntity] at hf
    obtain ⟨kv, hkv, rfl⟩ := List.mem_map.mp hf
    exact hkeys s hs kv hkv
  · simp [erUnionLines, unionBaseEntity, unionOptionEntity, mermaidUnionLine,
      List.map_map, Function.comp_def, flatten_map_nil]

/-- A concrete two-option discriminated union for the C5 witness. -/
def c5Specs : List (Meta × JsLit × List (String × Zod)) :=
  [(⟨none, none, none⟩, JsLit.str "card", [("cardNumber", .boolean)]),
   (⟨none, none, none⟩, JsLit.str "paypal", [("email", .bigint)])]

theorem claim_C5_discriminated_union_witness :
    parseCore [] 2 "Entity" (discUnionSchema ⟨none, none, none⟩ "method" c5Specs) none
      = .ok (unionBaseEntity ⟨none, none, none⟩ "method" "Entity" none c5Specs
          :: c5Specs.map (unionOptionEntity (unionBaseName ⟨none, none, none⟩ none "Entity")))
    ∧ (c5Specs.map (unionOptionEntity (unionBaseName ⟨none, none, none⟩ none "Entity"))).length
        = c5Specs.length
    ∧ (∀ e ∈ c5Specs.map (unionOptionEntity (unionBaseName ⟨none, none, none⟩ none "Entity")),
        ∀ f ∈ e.fields, f.name ≠ "method")
    ∧ erUnionLines (unionBaseEntity ⟨none, none, none⟩ "method" "Entity" none c5Specs
          :: c5Specs.map (unionOptionEntity (unionBaseName ⟨none, none, none⟩ none "Entity")))
      = c5Specs.map (fun s => mermaidUnionLine (unionBaseName ⟨none, none, none⟩ none "Entity")
          (optionEntityNameOf (unionBaseName ⟨none, none, none⟩ none "Entity") s)
          s.2.1.asString) :=
  claim_C5_discriminated_union [] ⟨none, none, none⟩ "method" "Entity" none 0 c5Specs
    (by decide) (by decide)

end ZodMermaid
